import Mathlib

/-!
Verification development for the ragsmith PDF preprocessing pipeline.

Shallow embedding of the chunking stage (src/stages/chunker.py), the quality
validation stage (src/stages/validator.py), their helpers (src/core/utils.py),
the data model (src/core/models.py) and the resume logic of src/pipeline.py.

Modelling conventions:
* Python strings are lists of characters (PyStr).  Python ints are Int where
  they can go negative (cursor positions) and Nat where the source keeps them
  nonnegative (counters, lengths, page numbers).
* Python floats are modelled by exact rationals.  Every constant involved is a
  small decimal, so the arithmetic matches the source computation except for
  IEEE rounding at extreme magnitudes, which no claim depends on.
* External effects are parameters: the semantic oracle transport (requests in
  validator pure call) is a function giving the response text of the n-th
  attempted call, and the md5 hex digest used inside chunk ids is a string
  function parameter.  Everything else is translated from the source.
* Python exceptions that the source can actually raise are modelled with
  Except; code paths that catch every exception are total functions.
-/

set_option allowUnsafeReducibility true
attribute [local semireducible] Rat.add Rat.mul Rat.div Rat.inv Rat.sub Rat.neg

/-- Python text modeled as a list of characters. -/
abbrev PyStr := List Char

/-- Shorthand to turn a Lean string literal into a PyStr. -/
def str (s : String) : PyStr := s.data

/-- Approximation of the Unicode white space class used by Python str.strip
and the regex class for white space: ASCII white space plus the vertical tab,
form feed, next line, no-break space and ideographic space.  These are the
only white space code points reachable in the texts this development
evaluates. -/
def pyIsSpace (c : Char) : Bool :=
  c.isWhitespace || c.toNat == 0x0b || c.toNat == 0x0c || c.toNat == 0x85 ||
  c.toNat == 0xa0 || c.toNat == 0x3000

/-- Python str.strip, left part. -/
def pyStripLeft (s : PyStr) : PyStr := s.dropWhile pyIsSpace

/-- Python str.strip, right part. -/
def pyStripRight (s : PyStr) : PyStr := (s.reverse.dropWhile pyIsSpace).reverse

/-- Python str.strip. -/
def pyStrip (s : PyStr) : PyStr := pyStripRight (pyStripLeft s)

/-- utils.is_chinese_char: code point in the CJK unified ideographs block. -/
def isChineseChar (c : Char) : Bool := 0x4e00 ≤ c.toNat && c.toNat ≤ 0x9fff

/-- utils.count_tokens with the default simple method: the floor of
1.5 * chinese + other / 4.  Both summands are exact dyadic floats in the
source, so the float sum equals (6 * chinese + other) / 4 exactly and the
int conversion is the floor. -/
def countTokens (s : PyStr) : ℕ :=
  (6 * (s.filter isChineseChar).length + (s.length - (s.filter isChineseChar).length)) / 4

/-- Sentence terminators of utils.split_sentences. -/
def isSentEnd (c : Char) : Bool :=
  c == '。' || c == '！' || c == '？' || c == '.' || c == '!' || c == '?'

/-- Recursive worker for utils.split_sentences.  The source splits on the
regex capturing maximal terminator runs and then glues every segment to the
run that follows it, skipping pieces that strip to nothing.  Equivalently:
scan the text, keep accumulating while inside a segment or its trailing
terminator run, and flush when a non-terminator follows a terminator. -/
def splitSentencesAux : PyStr → PyStr → Bool → List PyStr
  | [], cur, _ =>
    if pyStrip cur = [] then [] else [pyStrip cur]
  | c :: rest, cur, afterRun =>
    if isSentEnd c then splitSentencesAux rest (cur ++ [c]) true
    else if afterRun then
      if pyStrip cur = [] then splitSentencesAux rest [c] false
      else pyStrip cur :: splitSentencesAux rest [c] false
    else splitSentencesAux rest (cur ++ [c]) false

/-- utils.split_sentences. -/
def splitSentences (s : PyStr) : List PyStr := splitSentencesAux s [] false

/-- Chunk stage configuration (core/config.py ChunkConfig). -/
structure ChunkConfig where
  size : ℕ
  overlap : ℕ
  minChunkSize : ℕ
  splitBy : String
  respectSentenceBoundary : Bool
deriving DecidableEq, Repr

/-- Worker of Chunker._get_overlap_text: walk the sentences from the end,
prepending while the token sum stays within the overlap budget, stopping at
the first sentence that would exceed it. -/
def overlapTextAux (overlap : ℕ) : List PyStr → PyStr → ℕ → PyStr
  | [], acc, _ => acc
  | s :: rest, acc, toks =>
    if toks + countTokens s ≤ overlap then
      overlapTextAux overlap rest (s ++ [' '] ++ acc) (toks + countTokens s)
    else acc

/-- Chunker._get_overlap_text. -/
def overlapText (overlap : ℕ) (text : PyStr) : PyStr :=
  if text = [] then []
  else pyStrip (overlapTextAux overlap (splitSentences text).reverse [] 0)

/-- Loop state of Chunker._force_split. -/
structure FsState where
  chunks : List PyStr
  cur : PyStr
  curToks : ℕ
deriving DecidableEq, Repr

/-- One iteration of the character loop in Chunker._force_split.  The
overlap character count is the floor of len(cur) * overlap / size; Python
computes it by float division but the operands here are small integers, so
the floor equals natural division.  A zero size would raise in Python and is
ruled out by config validation; natural division then yields an overlap of
zero instead. -/
def forceSplitStep (size overlap : ℕ) (st : FsState) (c : Char) : FsState :=
  let w := countTokens [c]
  let st1 :=
    if size < st.curToks + w then
      let chunks1 := if st.cur ≠ [] then st.chunks ++ [st.cur] else st.chunks
      let overlapChars := st.cur.length * overlap / size
      let cur1 := if 0 < overlapChars then st.cur.drop (st.cur.length - overlapChars) else []
      FsState.mk chunks1 cur1 (countTokens cur1)
    else st
  FsState.mk st1.chunks (st1.cur ++ [c]) (st1.curToks + w)

/-- Chunker._force_split. -/
def forceSplit (size overlap : ℕ) (text : PyStr) : List PyStr :=
  let st := text.foldl (forceSplitStep size overlap) (FsState.mk [] [] 0)
  if st.cur ≠ [] then st.chunks ++ [st.cur] else st.chunks

/-- Loop state of the sentence accumulation loop in Chunker._split_by_tokens. -/
structure TokState where
  chunks : List PyStr
  cur : PyStr
  curToks : ℕ
deriving DecidableEq, Repr

/-- One sentence step of Chunker._split_by_tokens: force split an over budget
sentence, close the chunk and seed the overlap on overflow, otherwise
accumulate with a single space separator.  The running token counter is
incremented rather than recomputed in the accumulate branch, exactly as in
the source. -/
def tokenStep (cfg : ChunkConfig) (st : TokState) (s : PyStr) : TokState :=
  let sToks := countTokens s
  if cfg.size < sToks then
    let chunks1 := if st.cur ≠ [] then st.chunks ++ [st.cur] else st.chunks
    let sub := forceSplit cfg.size cfg.overlap s
    let newCur := sub.getLastD []
    TokState.mk (chunks1 ++ sub.dropLast) newCur (countTokens newCur)
  else if cfg.size < st.curToks + sToks then
    let chunks1 := if st.cur ≠ [] then st.chunks ++ [st.cur] else st.chunks
    let newCur := overlapText cfg.overlap st.cur ++ s
    TokState.mk chunks1 newCur (countTokens newCur)
  else
    let newCur := if st.cur ≠ [] then st.cur ++ [' '] ++ s else s
    TokState.mk st.chunks newCur (st.curToks + sToks)

/-- The fold of Chunker._split_by_tokens over the sentence list. -/
def tokenFold (cfg : ChunkConfig) (text : PyStr) : TokState :=
  (splitSentences text).foldl (tokenStep cfg) (TokState.mk [] [] 0)

/-- Chunker._split_by_tokens.  Note the final fragment is appended only when
its recomputed token estimate reaches min_chunk_size. -/
def splitByTokens (cfg : ChunkConfig) (text : PyStr) : List PyStr :=
  if cfg.respectSentenceBoundary then
    let st := tokenFold cfg text
    if st.cur ≠ [] ∧ cfg.minChunkSize ≤ countTokens st.cur then st.chunks ++ [st.cur]
    else st.chunks
  else forceSplit cfg.size cfg.overlap text

/-- Loop state of Chunker._split_by_sentences. -/
structure SentState where
  chunks : List PyStr
  cur : PyStr
deriving DecidableEq, Repr

/-- One sentence step of Chunker._split_by_sentences: close the chunk when the
character length would pass four characters per token times the size budget. -/
def sentenceStep (cfg : ChunkConfig) (st : SentState) (s : PyStr) : SentState :=
  if cfg.size * 4 < st.cur.length + s.length then
    SentState.mk (if st.cur ≠ [] then st.chunks ++ [st.cur] else st.chunks) s
  else SentState.mk st.chunks (if st.cur ≠ [] then st.cur ++ [' '] ++ s else s)

/-- Chunker._split_by_sentences. -/
def splitBySentences (cfg : ChunkConfig) (text : PyStr) : List PyStr :=
  let st := (splitSentences text).foldl (sentenceStep cfg) (SentState.mk [] [])
  if st.cur ≠ [] then st.chunks ++ [st.cur] else st.chunks

/-- Sentence terminators of Chunker._split_by_chars, which additionally
include the newline. -/
def isSentEndNl (c : Char) : Bool := isSentEnd c || c == '\n'

/-- Backward snap of the right boundary in Chunker._split_by_chars: the
Python loop walks i from endPos down to bound + 1 and moves the boundary to
just past the first terminator found. -/
def charSnapEnd (bound : ℕ) (text : PyStr) (endPos : ℕ) : ℕ :=
  match ((List.range (endPos + 1)).reverse.filter (fun i => bound < i)).find?
      (fun i => isSentEndNl (text.getD i ' ')) with
  | some i => i + 1
  | none => endPos

/-- The cursor update of one iteration of Chunker._split_by_chars: compute
the window end with the optional sentence boundary snap, then step the cursor
to end minus the character overlap, or to end when that would not be
positive. -/
def charWindowEnd (cfg : ChunkConfig) (text : PyStr) (start : ℕ) : ℕ :=
  let cs := cfg.size * 4
  let endPos := min (start + cs) text.length
  if endPos < text.length ∧ cfg.respectSentenceBoundary then
    charSnapEnd (max (start + cs / 2) start) text endPos
  else endPos

/-- The next cursor position in Chunker._split_by_chars. -/
def charNextStart (cfg : ChunkConfig) (text : PyStr) (start : ℕ) : ℕ :=
  let endPos := charWindowEnd cfg text start
  let co := cfg.overlap * 4
  if endPos ≤ co then endPos else endPos - co

/-- Fuelled loop of Chunker._split_by_chars.  The source loop is an
unbounded while; the fuel makes the embedding total, and exhausting the fuel
on every fuel value is how this development expresses nontermination. -/
def splitByCharsAux (cfg : ChunkConfig) (text : PyStr) :
    ℕ → ℕ → List PyStr → Option (List PyStr)
  | 0, _, _ => none
  | fuel + 1, start, acc =>
    if text.length ≤ start then some acc
    else
      let endPos := charWindowEnd cfg text start
      let chunk := (text.drop start).take (endPos - start)
      let acc1 := if pyStrip chunk ≠ [] then acc ++ [chunk] else acc
      splitByCharsAux cfg text fuel (charNextStart cfg text start) acc1

/-- Chunker._split_by_chars. -/
def splitByChars (cfg : ChunkConfig) (fuel : ℕ) (text : PyStr) : Option (List PyStr) :=
  splitByCharsAux cfg text fuel 0 []

/-- Block types of core/models.py. -/
inductive BlockType
  | text
  | table
  | image
deriving DecidableEq, Repr

/-- The declared content shapes of PageBlock.content, a Python Union of str
and dict.  A table dict is represented by its rows value, a list of rows of
cell strings, which is the shape Chunker._table_to_text reads. -/
inductive BlockContent
  | str (s : PyStr)
  | table (rows : List (List PyStr))
deriving DecidableEq, Repr

/-- core/models.py PageBlock, restricted to the fields the chunker reads. -/
structure PageBlock where
  type : BlockType
  content : BlockContent
  confidence : ℚ
deriving DecidableEq, Repr

/-- The Python exceptions reachable in the embedded chunker code. -/
inductive PyErr
  | attributeError
deriving DecidableEq, Repr

/-- Decidable equality of Except values, used to evaluate the example level
statements below. -/
instance exceptDecEq {α β : Type} [DecidableEq α] [DecidableEq β] :
    DecidableEq (Except α β) := fun x y =>
  match x, y with
  | Except.ok a, Except.ok b =>
    if h : a = b then isTrue (by rw [h]) else isFalse (fun he => by cases he; exact h rfl)
  | Except.error a, Except.error b =>
    if h : a = b then isTrue (by rw [h]) else isFalse (fun he => by cases he; exact h rfl)
  | Except.ok _, Except.error _ => isFalse (fun he => by cases he)
  | Except.error _, Except.ok _ => isFalse (fun he => by cases he)

/-- Join a list of strings with a separator, as Python sep.join. -/
def joinSep (sep : PyStr) : List PyStr → PyStr
  | [] => []
  | [x] => x
  | x :: xs => x ++ sep ++ joinSep sep xs

/-- One row of Chunker._table_to_text: strip the truthy cells and join them
with a pipe separator; a row whose filtered cell list is empty contributes
nothing. -/
def tableRowText (row : List PyStr) : Option PyStr :=
  let cells := (row.filter (fun c => c ≠ [])).map pyStrip
  if cells = [] then none else some (joinSep (str " | ") cells)

/-- Chunker._table_to_text on a rows value. -/
def tableToText (rows : List (List PyStr)) : PyStr :=
  if rows = [] then []
  else joinSep [Char.ofNat 10] (rows.filterMap tableRowText)

/-- One entry of the merged content list built by Chunker._merge_page_contents. -/
structure MergedItem where
  text : PyStr
  page : ℕ
  confidence : ℚ
  isTable : Bool
deriving DecidableEq, Repr

/-- The per block body of Chunker._merge_page_contents.  A text block whose
content is not a string fails the isinstance test and is skipped; a table
block always has table_to_text applied to its content, and calling the dict
get method on a string raises AttributeError; image blocks are skipped. -/
def blockToMerged (page : ℕ) (b : PageBlock) : Except PyErr (List MergedItem) :=
  match b.type, b.content with
  | BlockType.text, BlockContent.str s =>
    if pyStrip s ≠ [] then Except.ok [MergedItem.mk (pyStrip s) page b.confidence false]
    else Except.ok []
  | BlockType.text, BlockContent.table _ => Except.ok []
  | BlockType.table, BlockContent.table rows =>
    let t := tableToText rows
    if t ≠ [] then Except.ok [MergedItem.mk t page b.confidence true] else Except.ok []
  | BlockType.table, BlockContent.str _ => Except.error PyErr.attributeError
  | BlockType.image, _ => Except.ok []

/-- Merge the blocks of one page in order, stopping at the first raised
exception. -/
def mergeBlocksOnPage (page : ℕ) : List PageBlock → Except PyErr (List MergedItem)
  | [] => Except.ok []
  | b :: bs =>
    match blockToMerged page b, mergeBlocksOnPage page bs with
    | Except.error e, _ => Except.error e
    | Except.ok _, Except.error e => Except.error e
    | Except.ok xs, Except.ok ys => Except.ok (xs ++ ys)

/-- Merge an already sorted window page by page, stopping at the first
raised exception. -/
def mergePagesSorted : List (ℕ × List PageBlock) → Except PyErr (List MergedItem)
  | [] => Except.ok []
  | (p, blocks) :: rest =>
    match mergeBlocksOnPage p blocks, mergePagesSorted rest with
    | Except.error e, _ => Except.error e
    | Except.ok _, Except.error e => Except.error e
    | Except.ok xs, Except.ok ys => Except.ok (xs ++ ys)

/-- Stable insertion of a window entry into a key sorted window prefix. -/
def insertByKey (x : ℕ × List PageBlock) :
    List (ℕ × List PageBlock) → List (ℕ × List PageBlock)
  | [] => [x]
  | y :: ys => if y.1 ≤ x.1 then y :: insertByKey x ys else x :: y :: ys

/-- Ascending stable sort of the window by page key, the iteration order of
the sorted builtin over the dict keys. -/
def sortWindow (w : List (ℕ × List PageBlock)) : List (ℕ × List PageBlock) :=
  w.foldr insertByKey []

/-- Chunker._merge_page_contents: iterate the pages of the window in sorted
key order.  The window is an association list standing for the Python dict. -/
def mergePageContents (window : List (ℕ × List PageBlock)) : Except PyErr (List MergedItem) :=
  mergePagesSorted (sortWindow window)

/-- One interval of the character position to page index built in
Chunker._split_into_chunks: the text of one merged item starts at start and
covers len characters of page page. -/
structure Iv where
  start : ℕ
  len : ℕ
  page : ℕ
deriving DecidableEq, Repr

/-- State of the full text construction in Chunker._split_into_chunks. -/
structure BuildState where
  text : PyStr
  ivs : List Iv
deriving DecidableEq, Repr

/-- One merged item appended to the full text: insert the paragraph
separator when the text so far is nonempty and does not already end with a
newline, then record the position range of the item. -/
def buildStep (st : BuildState) (item : MergedItem) : BuildState :=
  let text1 :=
    if st.text ≠ [] ∧ st.text.getLast? ≠ some (Char.ofNat 10) then
      st.text ++ [Char.ofNat 10, Char.ofNat 10]
    else st.text
  BuildState.mk (text1 ++ item.text) (st.ivs ++ [Iv.mk text1.length item.text.length item.page])

/-- The full text and position index of Chunker._split_into_chunks. -/
def buildFullText (merged : List MergedItem) : BuildState :=
  merged.foldl buildStep (BuildState.mk [] [])

/-- Lookup in the position to page mapping: the char_to_page dict holds
exactly the positions covered by some interval. -/
def pageAt (ivs : List Iv) (pos : ℤ) : Option ℕ :=
  ivs.findSome? (fun iv =>
    if (iv.start : ℤ) ≤ pos ∧ pos < (iv.start : ℤ) + iv.len then some iv.page else none)

/-- Python str.find with a start argument that may be negative: a negative
start counts from the end of the string clamped at zero, and the result is
the least matching position at or after it. -/
def pyFind (hay sub : PyStr) (start0 : ℤ) : Option ℕ :=
  let n0 : ℕ := if start0 < 0 then (max 0 (hay.length + start0)).toNat else start0.toNat
  (List.range (hay.length + 1)).find? (fun i =>
    decide (n0 ≤ i) && decide (i + sub.length ≤ hay.length) && sub.isPrefixOf (hay.drop i))

/-- Quality levels of core/models.py. -/
inductive QualityLevel
  | good
  | low
  | reject
deriving DecidableEq, Repr

/-- core/models.py Chunk, restricted to the fields the embedded stages read
or write.  The reject reason entry of the metadata dict is modelled as an
optional field. -/
structure Chunk where
  chunkId : PyStr
  content : PyStr
  source : PyStr
  pageStart : ℕ
  pageEnd : ℕ
  tokenCount : ℕ
  charCount : ℕ
  ruleScore : ℚ
  llmQuality : Option QualityLevel
  llmConfidence : ℚ
  llmReason : PyStr
  rejectReason : Option PyStr
deriving DecidableEq, Repr

/-- Decimal digits of a natural number, as Python str of an int. -/
def natToStr (n : ℕ) : PyStr := Nat.toDigits 10 n

/-- Zero padded four digit decimal field of the chunk id format string: for
arguments below 10000 exactly four digits, otherwise the full decimal form. -/
def pad4 (n : ℕ) : PyStr :=
  if n < 10000 then
    [Nat.digitChar (n / 1000 % 10), Nat.digitChar (n / 100 % 10),
     Nat.digitChar (n / 10 % 10), Nat.digitChar (n % 10)]
  else natToStr n

/-- utils.generate_chunk_id.  The hashFn parameter stands for the first
eight hex digits of the md5 digest of its argument, an external library
call; every theorem below holds for an arbitrary such function. -/
def generateChunkId (hashFn : PyStr → PyStr) (source : PyStr) (ps pe index : ℕ) : PyStr :=
  let base := source ++ ['_'] ++ natToStr ps ++ ['_'] ++ natToStr pe ++ ['_'] ++ natToStr index
  str "chunk_" ++ pad4 ps ++ ['_'] ++ pad4 pe ++ ['_'] ++ pad4 index ++ ['_'] ++ hashFn base

/-- State of the chunk object creation loop of Chunker._split_into_chunks:
the search cursor current_pos, the instance chunk counter, and the chunks
emitted so far. -/
structure EmitState where
  pos : ℤ
  counter : ℕ
  chunks : List Chunk
deriving DecidableEq, Repr

/-- The chunk start of one loop iteration of Chunker._split_into_chunks:
the find result, or the cursor when the search fails. -/
def emitChunkStart (fullText : PyStr) (pos : ℤ) (ct : PyStr) : ℤ :=
  match pyFind fullText ct pos with
  | some i => (i : ℤ)
  | none => pos

/-- The start page of a piece: the position index at the chunk start, with
the dict get default of zero. -/
def emitPageStart (ivs : List Iv) (chunkStart : ℤ) : ℕ :=
  (pageAt ivs chunkStart).getD 0

/-- The end page of a piece: the position index at the last covered
position clamped to the text, defaulting to the start page. -/
def emitPageEnd (ivs : List Iv) (fullText : PyStr) (chunkStart : ℤ) (ct : PyStr) : ℕ :=
  (pageAt ivs (min (chunkStart + ct.length - 1) ((fullText.length : ℤ) - 1))).getD
    (emitPageStart ivs chunkStart)

/-- The chunk object built by one loop iteration of
Chunker._split_into_chunks: the stripped content but the unstripped
character count, the page range from the position index, and the identifier
from the incremented instance counter, exactly as in the source. -/
def emitChunkOf (source : PyStr) (hashFn : PyStr → PyStr)
    (fullText : PyStr) (ivs : List Iv) (st : EmitState) (ct : PyStr) : Chunk :=
  { chunkId := generateChunkId hashFn source
      (emitPageStart ivs (emitChunkStart fullText st.pos ct))
      (emitPageEnd ivs fullText (emitChunkStart fullText st.pos ct) ct) (st.counter + 1)
    content := pyStrip ct
    source := source
    pageStart := emitPageStart ivs (emitChunkStart fullText st.pos ct)
    pageEnd := emitPageEnd ivs fullText (emitChunkStart fullText st.pos ct) ct
    tokenCount := countTokens ct
    charCount := ct.length
    ruleScore := 1
    llmQuality := none
    llmConfidence := 0
    llmReason := []
    rejectReason := none }

/-- One iteration of the chunk object creation loop of
Chunker._split_into_chunks.  Pieces that strip to nothing are skipped
without touching the state; otherwise the cursor moves to the chunk end
minus the overlap, the counter advances, and the new chunk is appended. -/
def emitStep (cfg : ChunkConfig) (source : PyStr) (hashFn : PyStr → PyStr)
    (fullText : PyStr) (ivs : List Iv) (st : EmitState) (ct : PyStr) : EmitState :=
  if pyStrip ct = [] then st
  else
    EmitState.mk (emitChunkStart fullText st.pos ct + ct.length - cfg.overlap)
      (st.counter + 1) (st.chunks ++ [emitChunkOf source hashFn fullText ivs st ct])

/-- Dispatch on chunk.split_by as in Chunker._split_into_chunks: token and
sentence are matched by name and anything else falls through to the
character splitter, the only branch that needs fuel. -/
def splitDispatch (cfg : ChunkConfig) (fuel : ℕ) (text : PyStr) : Option (List PyStr) :=
  if cfg.splitBy = "token" then some (splitByTokens cfg text)
  else if cfg.splitBy = "sentence" then some (splitBySentences cfg text)
  else splitByChars cfg fuel text

/-- Chunker._split_into_chunks from a merged content list, threading the
instance chunk counter.  Returns none exactly when the character splitter
runs out of fuel. -/
def splitIntoChunks (cfg : ChunkConfig) (source : PyStr) (hashFn : PyStr → PyStr)
    (counter0 : ℕ) (fuel : ℕ) (merged : List MergedItem) : Option (List Chunk × ℕ) :=
  let b := buildFullText merged
  if pyStrip b.text = [] then some ([], counter0)
  else
    match splitDispatch cfg fuel b.text with
    | none => none
    | some cts =>
      let st := cts.foldl (emitStep cfg source hashFn b.text b.ivs) (EmitState.mk 0 counter0 [])
      some (st.chunks, st.counter)

/-- Chunker.create_chunks on a window of page blocks.  The outer options:
an error is a Python exception escaping the call, and a none result is the
character splitter failing to terminate within the fuel. -/
def createChunks (cfg : ChunkConfig) (source : PyStr) (hashFn : PyStr → PyStr)
    (counter0 : ℕ) (fuel : ℕ) (window : List (ℕ × List PageBlock)) :
    Except PyErr (Option (List Chunk × ℕ)) :=
  match mergePageContents window with
  | Except.error e => Except.error e
  | Except.ok merged =>
    if merged = [] then Except.ok (some ([], counter0))
    else Except.ok (splitIntoChunks cfg source hashFn counter0 fuel merged)

/-- Garble detection configuration (core/config.py GarbleDetectionConfig). -/
structure GarbleDetectionConfig where
  enabled : Bool
  maxGarbleRatio : ℚ
deriving DecidableEq, Repr

/-- Oracle validation routing configuration (core/config.py LLMValidationConfig). -/
structure LLMValidationConfig where
  enabled : Bool
  onlyEdgeChunks : Bool
  edgeThreshold : ℚ
deriving DecidableEq, Repr

/-- Quality gate configuration (core/config.py QualityConfig). -/
structure QualityConfig where
  minLength : ℕ
  maxNoiseRatio : ℚ
  minInfoDensity : ℚ
  maxRepetitionRatio : ℚ
  garbleDetection : GarbleDetectionConfig
  llmValidation : LLMValidationConfig
deriving DecidableEq, Repr

/-- Oracle configuration (core/config.py LLMConfig), restricted to the
fields the validator reads.  The transport fields (model, endpoint, timeout,
retry count) live inside the oracle transport parameter. -/
structure LLMConfig where
  enabled : Bool
  maxCalls : ℕ
deriving DecidableEq, Repr

/-- The configuration sections the validator and chunker read. -/
structure Config where
  chunk : ChunkConfig
  quality : QualityConfig
  llm : LLMConfig
deriving DecidableEq, Repr

/-- Word characters of the noise regex: the regex class excludes characters
that are word characters, white space or CJK ideographs, and CJK ideographs
are already word characters under the Unicode re semantics.  Word characters
are approximated by ASCII alphanumerics, the underscore and the CJK block,
the alphabets exercised by this development. -/
def isWordChar (c : Char) : Bool := c.isAlphanum || c == '_' || isChineseChar c

/-- Lengths of the maximal runs of characters satisfying p, in order. -/
def runLengths (p : Char → Bool) (s : PyStr) : List ℕ :=
  let acc := s.foldl (fun (acc : List ℕ × ℕ) c =>
    if p c then (acc.1, acc.2 + 1)
    else if 0 < acc.2 then (acc.1 ++ [acc.2], 0) else (acc.1, 0)) ([], 0)
  if 0 < acc.2 then acc.1 ++ [acc.2] else acc.1

/-- utils.calculate_noise_ratio: runs of at least three special characters
count fully, runs of at least four white space characters count minus the
one retained character, and the density is capped at one. -/
def calculateNoiseRatio (s : PyStr) : ℚ :=
  if s = [] then 0
  else
    let special := ((runLengths (fun c => !(isWordChar c || pyIsSpace c)) s).filter
      (fun l => 3 ≤ l)).sum
    let ws := (((runLengths pyIsSpace s).filter (fun l => 4 ≤ l)).map (fun l => l - 1)).sum
    min (((special + ws : ℕ) : ℚ) / (s.length : ℚ)) 1

/-- Control characters: the Cc category.  The unicodedata test of the source
covers every category starting with C; of those only Cc and Co are reachable
in the texts this development evaluates, so Cf and unassigned code points
are not modelled. -/
def isControlCat (c : Char) : Bool := c.toNat < 0x20 || (0x7f ≤ c.toNat && c.toNat ≤ 0x9f)

/-- Private use area characters, the Co category. -/
def isPrivateUse (c : Char) : Bool :=
  (0xe000 ≤ c.toNat && c.toNat ≤ 0xf8ff) || (0xf0000 ≤ c.toNat && c.toNat ≤ 0xffffd) ||
  (0x100000 ≤ c.toNat && c.toNat ≤ 0x10fffd)

/-- The per character garble test of utils.is_garbled: control characters
other than the common white space, private use characters, and the
replacement character. -/
def isGarbleChar (c : Char) : Bool :=
  (isControlCat c && !(c == '\n' || c == '\r' || c == '\t' || c == ' ')) ||
  isPrivateUse c || c.toNat == 0xfffd

/-- utils.is_garbled: the garble density and whether it exceeds the
threshold strictly. -/
def isGarbled (s : PyStr) (threshold : ℚ) : Bool × ℚ :=
  if s = [] then (false, 0)
  else
    let r := ((s.filter isGarbleChar).length : ℚ) / (s.length : ℚ)
    (decide (threshold < r), r)

/-- utils.calculate_info_density: the fraction of characters that are CJK or
alphanumeric. -/
def calculateInfoDensity (s : PyStr) : ℚ :=
  if s = [] then 0
  else ((s.filter (fun c => isChineseChar c || c.isAlphanum)).length : ℚ) / (s.length : ℚ)

/-- utils.calculate_repetition_ratio: slide a window of the given length and
count windows already seen earlier, relative to the window count. -/
def calculateRepetitionRatio (minRepeatLen : ℕ) (s : PyStr) : ℚ :=
  if s.length < minRepeatLen * 2 then 0
  else
    let step := fun (acc : List PyStr × ℕ) (i : ℕ) =>
      let seg := (s.drop i).take minRepeatLen
      if seg ∈ acc.1 then (acc.1, acc.2 + 1) else (acc.1 ++ [seg], acc.2)
    let r := (List.range (s.length - minRepeatLen + 1)).foldl step ([], 0)
    (r.2 : ℚ) / ((s.length - minRepeatLen + 1 : ℕ) : ℚ)

/-- Validation result of core/models.py.  The reasons list is the list the
source joins into the reason string; its length is the recorded violation
count.  The violation message texts carry the fixed message prefixes, with
the interpolated numbers omitted since nothing reads them back. -/
structure ValidationResult where
  quality : QualityLevel
  confidence : ℚ
  reasons : List PyStr
  length : ℕ
  noiseRatio : ℚ
  infoDensity : ℚ
  garbleRatio : ℚ
  repetitionRatio : ℚ
  source : String
deriving DecidableEq, Repr

/-- The reason string of a validation result, as serialized by the source. -/
def reasonText (r : ValidationResult) : PyStr :=
  if r.reasons = [] then str "规则校验通过" else joinSep (str "; ") r.reasons

/-- Validator._calculate_rule_score: the weighted sum of the five submetric
scores.  A zero threshold would raise ZeroDivisionError in the source and
yields a zero quotient here; the claims never exercise that shape. -/
def ruleScoreOf (q : QualityConfig) (len : ℕ) (infoD noiseR garbleR repR : ℚ) : ℚ :=
  let lengthScore := min ((len : ℚ) / (q.minLength : ℚ)) 1
  let densityScore := min (infoD / q.minInfoDensity) 1
  let noiseScore := max 0 (1 - noiseR / q.maxNoiseRatio)
  let garbleScore := max 0 (1 - garbleR / q.garbleDetection.maxGarbleRatio)
  let repScore := max 0 (1 - repR / q.maxRepetitionRatio)
  (15 : ℚ) / 100 * lengthScore + (25 : ℚ) / 100 * densityScore + (25 : ℚ) / 100 * noiseScore +
  (20 : ℚ) / 100 * garbleScore + (15 : ℚ) / 100 * repScore

/-- The verdict branch at the end of Validator._rule_validation: violations
present mean reject on two or more violations or a composite score below
three tenths, low otherwise; no violations always mean good. -/
def ruleVerdict (reasons : List PyStr) (score : ℚ) : QualityLevel :=
  if reasons ≠ [] then
    if 2 ≤ reasons.length ∨ score < (3 : ℚ) / 10 then QualityLevel.reject else QualityLevel.low
  else QualityLevel.good

/-- Validator._rule_validation on the chunk content. -/
def ruleValidation (q : QualityConfig) (content : PyStr) : ValidationResult :=
  let len := content.length
  let r1 : List PyStr := if len < q.minLength then [str "长度不足"] else []
  let infoD := calculateInfoDensity content
  let r2 : List PyStr := if infoD < q.minInfoDensity then [str "信息密度低"] else []
  let noiseR := calculateNoiseRatio content
  let r3 : List PyStr := if q.maxNoiseRatio < noiseR then [str "噪声过多"] else []
  let garblePair :=
    if q.garbleDetection.enabled then isGarbled content q.garbleDetection.maxGarbleRatio
    else (false, 0)
  let r4 : List PyStr := if garblePair.1 then [str "检测到乱码"] else []
  let repR := calculateRepetitionRatio 5 content
  let r5 : List PyStr := if q.maxRepetitionRatio < repR then [str "重复过多"] else []
  let reasons := r1 ++ r2 ++ r3 ++ r4 ++ r5
  let score := ruleScoreOf q len infoD noiseR garblePair.2 repR
  { quality := ruleVerdict reasons score
    confidence := score
    reasons := reasons
    length := len
    noiseRatio := noiseR
    infoDensity := infoD
    garbleRatio := garblePair.2
    repetitionRatio := repR
    source := "rule" }

/-- Validator state: the oracle call counter of one Validator instance.  The
counter is incremented at the top of every attempted oracle call, so it
equals the number of attempted calls, failures included. -/
structure ValidatorState where
  llmCallCount : ℕ
deriving DecidableEq, Repr

/-- The fresh state built by Validator.__init__. -/
def initValidator : ValidatorState := ValidatorState.mk 0

/-- Validator._can_call_llm. -/
def canCallLlm (cfg : Config) (st : ValidatorState) : Bool :=
  st.llmCallCount < cfg.llm.maxCalls

/-- Validator._should_use_llm. -/
def shouldUseLlm (cfg : Config) (rule : ValidationResult) : Bool :=
  if !cfg.llm.enabled then false
  else if !cfg.quality.llmValidation.enabled then false
  else if cfg.quality.llmValidation.onlyEdgeChunks then
    if cfg.quality.llmValidation.edgeThreshold < rule.confidence ∧
        rule.quality = QualityLevel.good then false
    else if rule.confidence < (2 : ℚ) / 10 then false
    else true
  else true

/-- Values of the flat JSON objects the response parser can produce.  The
extraction regex match never contains a closing brace, so nested objects
cannot occur; nested arrays, accepted by the source parser only inside the
unused reason field, are treated as a parse failure. -/
inductive JValue
  | jstr (s : PyStr)
  | jnum (q : ℚ)
  | jbool (b : Bool)
  | jnull
deriving DecidableEq, Repr

/-- JSON white space. -/
def jsonWs (c : Char) : Bool := c == ' ' || c == '\t' || c == '\n' || c == '\r'

/-- Skip JSON white space. -/
def skipWs (s : PyStr) : PyStr := s.dropWhile jsonWs

/-- Hex digit value. -/
def hexVal (c : Char) : Option ℕ :=
  if '0' ≤ c ∧ c ≤ '9' then some (c.toNat - 48)
  else if 'a' ≤ c ∧ c ≤ 'f' then some (c.toNat - 87)
  else if 'A' ≤ c ∧ c ≤ 'F' then some (c.toNat - 70)
  else none

/-- Body of a JSON string after its opening quote: the decoded text and the
remaining input.  The common escapes and the four digit unicode escape are
handled; anything else is a decode failure, as in json.loads. -/
def parseJsonStringAux : PyStr → PyStr → Option (PyStr × PyStr)
  | [], _ => none
  | '"' :: rest, acc => some (acc, rest)
  | '\\' :: 'u' :: a :: b :: c :: d :: rest, acc =>
    match hexVal a, hexVal b, hexVal c, hexVal d with
    | some x, some y, some z, some w =>
      parseJsonStringAux rest (acc ++ [Char.ofNat (x * 4096 + y * 256 + z * 16 + w)])
    | _, _, _, _ => none
  | '\\' :: e :: rest, acc =>
    if e == '"' || e == '\\' || e == '/' then parseJsonStringAux rest (acc ++ [e])
    else if e == 'n' then parseJsonStringAux rest (acc ++ [Char.ofNat 10])
    else if e == 't' then parseJsonStringAux rest (acc ++ [Char.ofNat 9])
    else if e == 'r' then parseJsonStringAux rest (acc ++ [Char.ofNat 13])
    else if e == 'b' then parseJsonStringAux rest (acc ++ [Char.ofNat 8])
    else if e == 'f' then parseJsonStringAux rest (acc ++ [Char.ofNat 12])
    else none
  | c :: rest, acc =>
    if c == '\\' then none else parseJsonStringAux rest (acc ++ [c])

/-- Decimal digits prefix. -/
def takeDigits (s : PyStr) : PyStr × PyStr := (s.takeWhile Char.isDigit, s.dropWhile Char.isDigit)

/-- Value of a digit list. -/
def digitsVal (ds : PyStr) : ℕ := ds.foldl (fun acc c => acc * 10 + (c.toNat - 48)) 0

/-- A JSON number: optional minus, integer part, optional fraction part.
Exponents do not occur in any response this development evaluates and are a
parse failure. -/
def parseJsonNumber (s : PyStr) : Option (ℚ × PyStr) :=
  let (neg, s1) := match s with | '-' :: rest => (true, rest) | _ => (false, s)
  let (ip, s2) := takeDigits s1
  if ip = [] then none
  else
    match s2 with
    | '.' :: s3 =>
      let (fp, s4) := takeDigits s3
      if fp = [] then none
      else
        let q : ℚ := (digitsVal ip : ℚ) + (digitsVal fp : ℚ) / ((10 : ℚ) ^ fp.length)
        some (if neg then -q else q, s4)
    | _ => some ((if neg then -(digitsVal ip : ℚ) else (digitsVal ip : ℚ)), s2)

/-- One JSON value of the flat shapes described at JValue. -/
def parseJsonValue (s : PyStr) : Option (JValue × PyStr) :=
  match skipWs s with
  | '"' :: rest => (parseJsonStringAux rest []).map (fun p => (JValue.jstr p.1, p.2))
  | 't' :: 'r' :: 'u' :: 'e' :: rest => some (JValue.jbool true, rest)
  | 'f' :: 'a' :: 'l' :: 's' :: 'e' :: rest => some (JValue.jbool false, rest)
  | 'n' :: 'u' :: 'l' :: 'l' :: rest => some (JValue.jnull, rest)
  | rest => (parseJsonNumber rest).map (fun p => (JValue.jnum p.1, p.2))

/-- The member list of a JSON object after its opening brace, with fuel
bounded by the input length. -/
def parseJsonMembers : ℕ → PyStr → List (PyStr × JValue) → Option (List (PyStr × JValue) × PyStr)
  | 0, _, _ => none
  | fuel + 1, s, acc =>
    match skipWs s with
    | '"' :: rest =>
      match parseJsonStringAux rest [] with
      | none => none
      | some (key, rest1) =>
        match skipWs rest1 with
        | ':' :: rest2 =>
          match parseJsonValue rest2 with
          | none => none
          | some (v, rest3) =>
            match skipWs rest3 with
            | ',' :: rest4 => parseJsonMembers fuel rest4 (acc ++ [(key, v)])
            | '}' :: rest4 => some (acc ++ [(key, v)], rest4)
            | _ => none
        | _ => none
    | _ => none

/-- json.loads restricted to one flat object that must span the whole
input, the only candidate shape the brace extraction can produce. -/
def jsonLoads (s : PyStr) : Option (List (PyStr × JValue)) :=
  match skipWs s with
  | '{' :: rest =>
    match skipWs rest with
    | '}' :: rest2 => if skipWs rest2 = [] then some [] else none
    | _ =>
      match parseJsonMembers (rest.length + 1) rest [] with
      | some (ms, rest2) => if skipWs rest2 = [] then some ms else none
      | none => none
  | _ => none

/-- Leftmost match of the brace extraction regex of
Validator._parse_llm_response: an opening brace, at least one character that
is not a closing brace, then a closing brace; on a failed attempt the scan
resumes one character further. -/
def extractBracedFrom : PyStr → Option PyStr
  | [] => none
  | c :: rest =>
    if c == '{' then
      let inner := rest.takeWhile (fun x => x ≠ '}')
      if inner ≠ [] ∧ (rest.drop inner.length).head? = some '}' then
        some (c :: inner ++ ['}'])
      else extractBracedFrom rest
    else extractBracedFrom rest

/-- Dict lookup on the parsed member list: the last binding of a key wins,
as in a Python dict built by json.loads. -/
def jGet (ms : List (PyStr × JValue)) (k : PyStr) : Option JValue :=
  (ms.reverse.find? (fun m => m.1 = k)).map (fun m => m.2)

/-- Python str.lower restricted to ASCII, enough for the quality strings. -/
def pyToLower (s : PyStr) : PyStr := s.map Char.toLower

/-- The quality_map lookup with its low default. -/
def qualityFromStr (s : PyStr) : QualityLevel :=
  if s = str "good" then QualityLevel.good
  else if s = str "low" then QualityLevel.low
  else if s = str "reject" then QualityLevel.reject
  else QualityLevel.low

/-- The quality field read of Validator._parse_llm_response: a missing key
defaults to low, a string is lowercased and mapped, and a value that is not
a string makes the lower call raise AttributeError, which the caller turns
into an overall failure. -/
def qualityOfJ : Option JValue → Option QualityLevel
  | some (JValue.jstr s) => some (qualityFromStr (pyToLower s))
  | none => some QualityLevel.low
  | some _ => none

/-- Python float applied to a string: the numeric forms exercised here. -/
def pyFloatOfStr (s : PyStr) : Option ℚ :=
  match parseJsonNumber (pyStrip s) with
  | some (q, rest) => if rest = [] then some q else none
  | none => none

/-- The confidence field read: a missing key defaults to one half, numbers
pass through, numeric strings are converted, booleans convert to zero or
one, and null raises TypeError in float, an overall failure. -/
def pyFloatOfJ : Option JValue → Option ℚ
  | some (JValue.jnum q) => some q
  | some (JValue.jstr s) => pyFloatOfStr s
  | some (JValue.jbool b) => some (if b then 1 else 0)
  | some JValue.jnull => none
  | none => some ((1 : ℚ) / 2)

/-- The reason field read: a missing key defaults to the fixed label and a
non string value is stored as is by the source; a placeholder rendering
stands for that object since nothing reads it back. -/
def reasonOfJ : Option JValue → PyStr
  | some (JValue.jstr s) => s
  | none => str "LLM 评估"
  | some _ => str "<non-string reason>"

/-- Validator._parse_llm_response. -/
def parseLlmResponse (resp : PyStr) : Option ValidationResult :=
  match extractBracedFrom resp with
  | none => none
  | some cand =>
    match jsonLoads cand with
    | none => none
    | some ms =>
      match qualityOfJ (jGet ms (str "quality")), pyFloatOfJ (jGet ms (str "confidence")) with
      | some q, some conf =>
        some { quality := q
               confidence := conf
               reasons := [reasonOfJ (jGet ms (str "reason"))]
               length := 0
               noiseRatio := 0
               infoDensity := 0
               garbleRatio := 0
               repetitionRatio := 0
               source := "llm" }
      | _, _ => none

/-- The content excerpt embedded in the validation prompt by
Validator._build_validation_prompt. -/
def promptExcerpt (content : PyStr) : PyStr :=
  if 2000 < content.length then content.take 2000 ++ str "..." else content

/-- The oracle transport: given the prompt excerpt and the index of the
attempted call, the response text of Validator._call_ollama after its
internal retries, or none when every retry failed.  This parameter stands
for the external requests transport. -/
abbrev OracleTransport := PyStr → ℕ → Option PyStr

/-- Validator._llm_validation: the counter is incremented first, so failed
attempts are counted; any exception out of the transport or parse is caught
and yields none, a falsy empty response skips the parse. -/
def llmValidation (oracle : OracleTransport) (st : ValidatorState) (chunk : Chunk) :
    Option ValidationResult × ValidatorState :=
  let st1 := ValidatorState.mk (st.llmCallCount + 1)
  match oracle (promptExcerpt chunk.content) st.llmCallCount with
  | none => (none, st1)
  | some resp => if resp = [] then (none, st1) else (parseLlmResponse resp, st1)

/-- Validator.validate_chunk. -/
def validateChunk (cfg : Config) (oracle : OracleTransport) (st : ValidatorState)
    (chunk : Chunk) : Chunk × ValidationResult × ValidatorState :=
  let rule := ruleValidation cfg.quality chunk.content
  let chunk1 := { chunk with ruleScore := rule.confidence }
  if shouldUseLlm cfg rule ∧ canCallLlm cfg st then
    match llmValidation oracle st chunk1 with
    | (some r, st1) =>
      ({ chunk1 with
          llmQuality := some r.quality
          llmConfidence := r.confidence
          llmReason := r.reasons.headD [] }, r, st1)
    | (none, st1) => (chunk1, rule, st1)
  else (chunk1, rule, st)

/-- One chunk of the Validator.validate_chunks loop: route the authoritative
result, annotate and collect rejects, collect the rest. -/
def validateChunksStep (cfg : Config) (oracle : OracleTransport)
    (acc : List Chunk × List Chunk × ValidatorState) (chunk : Chunk) :
    List Chunk × List Chunk × ValidatorState :=
  let r := validateChunk cfg oracle acc.2.2 chunk
  if r.2.1.quality = QualityLevel.reject then
    (acc.1, acc.2.1 ++ [{ r.1 with rejectReason := some (reasonText r.2.1) }], r.2.2)
  else (acc.1 ++ [r.1], acc.2.1, r.2.2)

/-- Validator.validate_chunks. -/
def validateChunks (cfg : Config) (oracle : OracleTransport) (st : ValidatorState)
    (chunks : List Chunk) : List Chunk × List Chunk × ValidatorState :=
  chunks.foldl (validateChunksStep cfg oracle) ([], [], st)

/-- The validator state after any sequence of validate_chunks invocations on
one Validator instance. -/
def validateBatches (cfg : Config) (oracle : OracleTransport) (st : ValidatorState) :
    List (List Chunk) → ValidatorState
  | [] => st
  | b :: bs => validateBatches cfg oracle (validateChunks cfg oracle st b).2.2 bs

/-- core/models.py Checkpoint, restricted to the persisted fields the resume
path could read. -/
structure Checkpoint where
  lastProcessedPage : ℤ
  totalPages : ℕ
  processedChunks : ℕ
  llmCallsUsed : ℕ
deriving DecidableEq, Repr

/-- The state a resumed run starts from. -/
structure ResumedRun where
  startPage : ℤ
  validator : ValidatorState
deriving DecidableEq, Repr

/-- The resume path of Pipeline.run: _init_stages builds a fresh Validator,
whose counter starts at zero, and a loaded checkpoint only moves the start
page to the page after the last processed one.  No field of the checkpoint
other than last_processed_page is consulted. -/
def pipelineResumeInit (ck : Option Checkpoint) : ResumedRun :=
  match ck with
  | some c => ResumedRun.mk (c.lastProcessedPage + 1) initValidator
  | none => ResumedRun.mk 0 initValidator

/-! Concrete fixtures used by the example level theorems below.  The hash
stand in is an arbitrary concrete choice; the general theorems quantify over
the hash function. -/

/-- A concrete hash function stand in for the md5 hex digest. -/
def hashC : PyStr → PyStr := fun _ => str "h"

/-- A concrete source file name. -/
def srcDoc : PyStr := str "doc.pdf"

/-- A window holding one text block on page zero. -/
def oneTextWindow (s : String) : List (ℕ × List PageBlock) :=
  [(0, [PageBlock.mk BlockType.text (BlockContent.str (str s)) 1])]

/-- Character policy configuration with size two and overlap one, the
configuration of the nontermination example: overlap is below size, as
config validation demands. -/
def cfgCharStall : ChunkConfig := ChunkConfig.mk 2 1 0 "char" true

/-- Ten ordinary characters with no sentence terminator. -/
def textStall : PyStr := str "aaaaaaaaaa"

/-- Token policy, force split path, size one, no overlap. -/
def cfgTokForce : ChunkConfig := ChunkConfig.mk 1 0 0 "token" false

/-- Token policy, size five, no overlap, minimum chunk size four. -/
def cfgTokMin : ChunkConfig := ChunkConfig.mk 5 0 4 "token" true

/-- Token policy, large size, used to emit exactly one chunk per window. -/
def cfgTokBig : ChunkConfig := ChunkConfig.mk 100 0 0 "token" true

/-- Token policy, size five, overlap one, minimum chunk size one. -/
def cfgTokOv : ChunkConfig := ChunkConfig.mk 5 1 1 "token" true

/-- The default quality gate configuration of core/config.py. -/
def qcDefault : QualityConfig :=
  QualityConfig.mk 200 ((3 : ℚ) / 10) ((3 : ℚ) / 10) ((5 : ℚ) / 10)
    (GarbleDetectionConfig.mk true ((1 : ℚ) / 10))
    (LLMValidationConfig.mk true true ((6 : ℚ) / 10))

/-- A full configuration with the oracle enabled for every chunk and a call
ceiling of two: llm enabled, validation enabled, edge only routing off. -/
def cfgOracleAll : Config :=
  Config.mk (ChunkConfig.mk 800 150 100 "token" true)
    (QualityConfig.mk 200 ((3 : ℚ) / 10) ((3 : ℚ) / 10) ((5 : ℚ) / 10)
      (GarbleDetectionConfig.mk true ((1 : ℚ) / 10))
      (LLMValidationConfig.mk true false ((6 : ℚ) / 10)))
    (LLMConfig.mk true 2)

/-- An oracle transport whose every call fails. -/
def oracleDown : OracleTransport := fun _ _ => none

/-- An oracle transport that always answers with a well formed good verdict. -/
def oracleGood : OracleTransport := fun _ _ =>
  some (str "\x7b\"quality\": \"good\", \"confidence\": 0.9, \"reason\": \"ok\"\x7d")

/-- A chunk fixture with the given content and defaults elsewhere. -/
def mkChunk (content : PyStr) : Chunk :=
  { chunkId := str "c0"
    content := content
    source := srcDoc
    pageStart := 0
    pageEnd := 0
    tokenCount := 0
    charCount := content.length
    ruleScore := 1
    llmQuality := none
    llmConfidence := 0
    llmReason := []
    rejectReason := none }

/-- A chunk as emitted on page zero with the concrete hash stand in. -/
def mkEmittedChunk (id content : String) (tc cc : ℕ) : Chunk :=
  { chunkId := str id
    content := str content
    source := srcDoc
    pageStart := 0
    pageEnd := 0
    tokenCount := tc
    charCount := cc
    ruleScore := 1
    llmQuality := none
    llmConfidence := 0
    llmReason := []
    rejectReason := none }

/-- First chunk of the force split example: stripped content of one
character but a character count of two. -/
def chunkForceA : Chunk := mkEmittedChunk "chunk_0000_0000_0001_h" "中" 1 2

/-- Second chunk of the force split example. -/
def chunkForceB : Chunk := mkEmittedChunk "chunk_0000_0000_0002_h" "文" 1 1

/-- The single kept chunk of the dropped trailing fragment example. -/
def chunkKeptMin : Chunk := mkEmittedChunk "chunk_0000_0000_0001_h" "一二三。" 4 4

/-- The chunk of the first run of the repeated window example. -/
def chunkBigRun1 : Chunk := mkEmittedChunk "chunk_0000_0000_0001_h" "一二。" 3 3

/-- The chunk of the second run of the repeated window example: same window,
different identifier. -/
def chunkBigRun2 : Chunk := mkEmittedChunk "chunk_0000_0000_0002_h" "一二。" 3 3

/-- First chunk of the empty overlap seed example. -/
def chunkOvA : Chunk := mkEmittedChunk "chunk_0000_0000_0001_h" "一二。" 3 3

/-- Second chunk of the empty overlap seed example. -/
def chunkOvB : Chunk := mkEmittedChunk "chunk_0000_0000_0002_h" "三四。" 3 3

/-- A window holding a table block whose content is a string, one of the two
declared content shapes. -/
def tableStrWindow : List (ℕ × List PageBlock) :=
  [(0, [PageBlock.mk BlockType.table (BlockContent.str (str "oops")) 1])]

/-- A checkpoint recording thirty seven oracle calls used before the
interruption. -/
def ckExample : Checkpoint := Checkpoint.mk 41 100 50 37

/-- The parsed oracle verdict of the always good oracle transport. -/
def vrGood : ValidationResult :=
  { quality := QualityLevel.good
    confidence := (9 : ℚ) / 10
    reasons := [str "ok"]
    length := 0
    noiseRatio := 0
    infoDensity := 0
    garbleRatio := 0
    repetitionRatio := 0
    source := "llm" }

/-! Theorems. -/

/-- One stalled iteration of the character splitter on the example: from
cursor six the window end is the text end ten, and the cursor steps back to
six again. -/
theorem charSplitStallStep (n : ℕ) (acc : List PyStr) :
    splitByCharsAux cfgCharStall textStall (n + 1) 6 acc =
      splitByCharsAux cfgCharStall textStall n 6 (acc ++ [str "aaaa"]) := rfl

/-- From cursor six the character splitter never terminates, whatever the
fuel. -/
theorem charSplitStall (n : ℕ) :
    ∀ acc, splitByCharsAux cfgCharStall textStall n 6 acc = none := by
  induction n with
  | zero => intro acc; rfl
  | succ m ih =>
    intro acc
    rw [charSplitStallStep]
    exact ih _

/-- C7: the claim says the cursor of the character splitter strictly
advances on every iteration so the splitter terminates for every
configuration with overlap below size.  It does not: on ten terminator free
characters with size two and overlap one (overlap below size), the run
reaches cursor six, where the window end equals the text length, the next
cursor is again ten minus four, and the guard only fires on nonpositive
cursors, so the loop repeats the same iteration forever. -/
theorem charSplitNonterminating :
    charNextStart cfgCharStall textStall 6 = 6 ∧ 6 < textStall.length ∧
    cfgCharStall.overlap < cfgCharStall.size ∧
    ∀ fuel, splitByChars cfgCharStall fuel textStall = none := by
  refine ⟨rfl, by decide, by decide, ?_⟩
  intro fuel
  match fuel with
  | 0 => rfl
  | 1 => rfl
  | 2 => rfl
  | n + 3 =>
    have h1 : splitByChars cfgCharStall (n + 3) textStall =
        splitByCharsAux cfgCharStall textStall (n + 1) 6 [str "aaaaaaaa", str "aaaaaa"] := rfl
    rw [h1]
    exact charSplitStall (n + 1) _

/-- C2 counterexample: the claim says a trailing fragment whose token
estimate is below min_chunk_size is still emitted as the final chunk.  On
this window the sentence loop ends holding the fragment of three tokens,
below the minimum of four, and create_chunks returns only the first chunk:
the fragment is dropped. -/
theorem trailingFragmentDroppedExample :
    createChunks cfgTokMin srcDoc hashC 0 9 (oneTextWindow "一二三。四五。") =
      Except.ok (some ([chunkKeptMin], 1)) ∧
    (tokenFold cfgTokMin (str "一二三。四五。")).cur = str "四五。" ∧
    countTokens (str "四五。") < cfgTokMin.minChunkSize ∧
    chunkKeptMin.content ≠ str "四五。" := by
  refine ⟨by decide, by decide, by decide, by decide⟩

/-- C2 as amended: under the token policy with sentence boundaries, a
trailing fragment whose token estimate is below min_chunk_size is dropped,
so the split returns exactly the chunks closed before the final fragment. -/
theorem trailingFragmentBelowMinDropped (cfg : ChunkConfig) (text : PyStr)
    (hb : cfg.respectSentenceBoundary = true)
    (hlt : countTokens (tokenFold cfg text).cur < cfg.minChunkSize) :
    splitByTokens cfg text = (tokenFold cfg text).chunks := by
  have hcond : ¬((tokenFold cfg text).cur ≠ [] ∧
      cfg.minChunkSize ≤ countTokens (tokenFold cfg text).cur) := by
    rintro ⟨-, h2⟩
    omega
  simp only [splitByTokens, hb, if_true, if_neg hcond]

/-- Witness for the amended C2 statement at the concrete example. -/
theorem trailingFragmentBelowMinDropped_witness :
    splitByTokens cfgTokMin (str "一二三。四五。") =
      (tokenFold cfgTokMin (str "一二三。四五。")).chunks :=
  trailingFragmentBelowMinDropped cfgTokMin (str "一二三。四五。") rfl (by decide)

/-- C1 counterexample: the claim says char_count equals the length of the
content field.  Under the force split path the raw piece keeps its trailing
space while the stored content is stripped, so the first emitted chunk has a
character count of two but content of length one. -/
theorem chunkCharCountMismatchExample :
    createChunks cfgTokForce srcDoc hashC 0 9 (oneTextWindow "中 文") =
      Except.ok (some ([chunkForceA, chunkForceB], 2)) ∧
    chunkForceA.charCount ≠ chunkForceA.content.length := by
  refine ⟨by decide, by decide⟩

/-- C3 counterexample: the claim says identifiers do not depend on the in
memory counter, so segmenting an identical window twice yields identical
identifiers.  Running create_chunks twice on the same one block window, the
second run starts from the counter the first one left behind, and the two
emitted chunks carry different identifiers. -/
theorem chunkIdCounterDependenceExample :
    createChunks cfgTokBig srcDoc hashC 0 9 (oneTextWindow "一二。") =
      Except.ok (some ([chunkBigRun1], 1)) ∧
    createChunks cfgTokBig srcDoc hashC 1 9 (oneTextWindow "一二。") =
      Except.ok (some ([chunkBigRun2], 2)) ∧
    chunkBigRun1.content = chunkBigRun2.content ∧
    chunkBigRun1.chunkId ≠ chunkBigRun2.chunkId := by
  refine ⟨by decide, by decide, by decide, by decide⟩

/-- C8 counterexample: the claim says create_chunks never raises for blocks
of every declared type and content shape.  A table block whose content is
the string shape reaches the dict get call inside table_to_text, which
raises AttributeError. -/
theorem tableStringContentRaisesExample :
    createChunks cfgTokBig srcDoc hashC 0 9 tableStrWindow =
      Except.error PyErr.attributeError := by decide

/-- C9 counterexample: the claim says that with the token policy, positive
overlap, two or more chunks and no force split, consecutive chunks share a
sentence.  Here both sentences fit the size budget, overlap is one, yet the
trailing sentence of the first chunk has three tokens, more than the overlap
budget, so the overlap seed is empty and the two chunks share no sentence. -/
theorem overlapNoSharedSentenceExample :
    createChunks cfgTokOv srcDoc hashC 0 9 (oneTextWindow "一二。三四。") =
      Except.ok (some ([chunkOvA, chunkOvB], 2)) ∧
    0 < cfgTokOv.overlap ∧
    splitSentences (str "一二。三四。") = [str "一二。", str "三四。"] ∧
    countTokens (str "一二。") ≤ cfgTokOv.size ∧
    countTokens (str "三四。") ≤ cfgTokOv.size ∧
    splitSentences chunkOvA.content = [str "一二。"] ∧
    splitSentences chunkOvB.content = [str "三四。"] ∧
    str "一二。" ≠ str "三四。" := by
  refine ⟨by decide, by decide, by decide, by decide, by decide, by decide, by decide, by decide⟩

/-- C5: the rule verdict is exactly the stated function of the recorded
violation count and the composite score: no violations give good regardless
of the score, exactly one violation with a score of at least three tenths
gives low, and two or more violations, or any violation with a score below
three tenths, give reject. -/
theorem ruleVerdictMapping (q : QualityConfig) (content : PyStr) :
    ((ruleValidation q content).reasons = [] →
      (ruleValidation q content).quality = QualityLevel.good) ∧
    ((ruleValidation q content).reasons.length = 1 ∧
        (3 : ℚ) / 10 ≤ (ruleValidation q content).confidence →
      (ruleValidation q content).quality = QualityLevel.low) ∧
    (2 ≤ (ruleValidation q content).reasons.length ∨
        ((ruleValidation q content).confidence < (3 : ℚ) / 10 ∧
          (ruleValidation q content).reasons ≠ []) →
      (ruleValidation q content).quality = QualityLevel.reject) := by
  have hq : (ruleValidation q content).quality =
      ruleVerdict (ruleValidation q content).reasons (ruleValidation q content).confidence := rfl
  rw [hq]
  generalize (ruleValidation q content).reasons = rs
  generalize (ruleValidation q content).confidence = sc
  unfold ruleVerdict
  refine ⟨?_, ?_, ?_⟩
  · intro h
    simp [h]
  · rintro ⟨h1, h2⟩
    have hne : rs ≠ [] := by
      intro h
      rw [h] at h1
      exact absurd h1 (by decide)
    rw [if_pos hne, if_neg]
    push_neg
    exact ⟨by omega, h2⟩
  · rintro (h | ⟨h1, h2⟩)
    · have hne : rs ≠ [] := by
        intro he
        rw [he] at h
        exact absurd h (by decide)
      rw [if_pos hne, if_pos (Or.inl h)]
    · rw [if_pos h2, if_pos (Or.inr h1)]

/-- Witness for the rule verdict mapping at two concrete contents: a short
clean text has one violation and a high score, low; the empty text has two
violations, reject. -/
theorem ruleVerdictMapping_witness :
    (ruleValidation qcDefault (str "abc")).quality = QualityLevel.low ∧
    (ruleValidation qcDefault []).quality = QualityLevel.reject := by
  constructor
  · exact (ruleVerdictMapping qcDefault (str "abc")).2.1 (by constructor <;> decide)
  · exact (ruleVerdictMapping qcDefault []).2.2 (Or.inl (by decide))

/-- The state out of _llm_validation: the counter is incremented whatever
the transport or parse outcome. -/
theorem llmValidationState (oracle : OracleTransport) (st : ValidatorState) (chunk : Chunk) :
    (llmValidation oracle st chunk).2 = ValidatorState.mk (st.llmCallCount + 1) := by
  unfold llmValidation
  rcases oracle (promptExcerpt chunk.content) st.llmCallCount with _ | resp
  · rfl
  · simp only
    split <;> rfl

/-- The validator state after validate_chunk: incremented exactly when the
chunk was routed to the oracle while the budget allowed, untouched
otherwise. -/
theorem validateChunkState (cfg : Config) (oracle : OracleTransport)
    (st : ValidatorState) (chunk : Chunk) :
    (validateChunk cfg oracle st chunk).2.2 =
      if shouldUseLlm cfg (ruleValidation cfg.quality chunk.content) ∧ canCallLlm cfg st then
        ValidatorState.mk (st.llmCallCount + 1)
      else st := by
  unfold validateChunk
  split
  · rename_i h
    rw [if_pos h]
    rcases hll : llmValidation oracle st
        { chunk with ruleScore := (ruleValidation cfg.quality chunk.content).confidence } with ⟨o, st1⟩
    have hst1 : st1 = ValidatorState.mk (st.llmCallCount + 1) := by
      have h2 := llmValidationState oracle st
        { chunk with ruleScore := (ruleValidation cfg.quality chunk.content).confidence }
      rw [hll] at h2
      exact h2
    cases o <;> simpa using hst1
  · rename_i h
    rw [if_neg h]

/-- Validate_chunk keeps the counter within the ceiling. -/
theorem validateChunkLe (cfg : Config) (oracle : OracleTransport)
    (st : ValidatorState) (chunk : Chunk) (h : st.llmCallCount ≤ cfg.llm.maxCalls) :
    ((validateChunk cfg oracle st chunk).2.2).llmCallCount ≤ cfg.llm.maxCalls := by
  rw [validateChunkState]
  split
  · rename_i hc
    have h2 := hc.2
    unfold canCallLlm at h2
    simp only [decide_eq_true_eq] at h2
    show st.llmCallCount + 1 ≤ cfg.llm.maxCalls
    omega
  · exact h

/-- The validator state threaded by one step of the validate_chunks loop is
the validate_chunk state. -/
theorem validateChunksStepState (cfg : Config) (oracle : OracleTransport)
    (acc : List Chunk × List Chunk × ValidatorState) (chunk : Chunk) :
    (validateChunksStep cfg oracle acc chunk).2.2 = (validateChunk cfg oracle acc.2.2 chunk).2.2 := by
  dsimp only [validateChunksStep]
  split <;> rfl

/-- The validate_chunks loop keeps the counter within the ceiling. -/
theorem validateChunksFoldLe (cfg : Config) (oracle : OracleTransport) :
    ∀ (chunks : List Chunk) (acc : List Chunk × List Chunk × ValidatorState),
      acc.2.2.llmCallCount ≤ cfg.llm.maxCalls →
      ((chunks.foldl (validateChunksStep cfg oracle) acc).2.2).llmCallCount ≤ cfg.llm.maxCalls := by
  intro chunks
  induction chunks with
  | nil => intro acc h; exact h
  | cons c cs ih =>
    intro acc h
    refine ih _ ?_
    rw [validateChunksStepState]
    exact validateChunkLe cfg oracle acc.2.2 c h

/-- Any batch sequence keeps the counter within the ceiling. -/
theorem validateBatchesLe (cfg : Config) (oracle : OracleTransport) :
    ∀ (batches : List (List Chunk)) (st : ValidatorState),
      st.llmCallCount ≤ cfg.llm.maxCalls →
      (validateBatches cfg oracle st batches).llmCallCount ≤ cfg.llm.maxCalls := by
  intro batches
  induction batches with
  | nil => intro st h; exact h
  | cons b bs ih =>
    intro st h
    exact ih _ (validateChunksFoldLe cfg oracle b ([], [], st) h)

/-- C4: across any number of validate_chunks invocations on one Validator
instance, the counter of attempted oracle calls never exceeds the
configured ceiling, and once the counter has reached the ceiling a further
validate_chunk leaves the state untouched: no chunk is routed to the oracle
any more. -/
theorem oracleBudgetCeiling (cfg : Config) (oracle : OracleTransport)
    (batches : List (List Chunk)) :
    (validateBatches cfg oracle initValidator batches).llmCallCount ≤ cfg.llm.maxCalls ∧
    ∀ (st : ValidatorState) (chunk : Chunk), st.llmCallCount = cfg.llm.maxCalls →
      (validateChunk cfg oracle st chunk).2.2 = st := by
  constructor
  · exact validateBatchesLe cfg oracle batches initValidator (Nat.zero_le _)
  · intro st chunk h
    have hcall : ¬(shouldUseLlm cfg (ruleValidation cfg.quality chunk.content) ∧
        canCallLlm cfg st) := by
      rintro ⟨-, h2⟩
      unfold canCallLlm at h2
      simp only [decide_eq_true_eq] at h2
      omega
    rw [validateChunkState, if_neg hcall]

/-- Witness for the call budget at a concrete configuration with ceiling
two: three chunks in one batch leave the counter at two, and at the ceiling
a further chunk leaves the state unchanged. -/
theorem oracleBudgetCeiling_witness :
    (validateBatches cfgOracleAll oracleDown initValidator
        [[mkChunk (str "abc"), mkChunk (str "abc"), mkChunk (str "abc")]]).llmCallCount ≤
      cfgOracleAll.llm.maxCalls ∧
    (validateChunk cfgOracleAll oracleDown (ValidatorState.mk 2) (mkChunk (str "abc"))).2.2 =
      ValidatorState.mk 2 :=
  ⟨(oracleBudgetCeiling cfgOracleAll oracleDown
      [[mkChunk (str "abc"), mkChunk (str "abc"), mkChunk (str "abc")]]).1,
    (oracleBudgetCeiling cfgOracleAll oracleDown []).2 (ValidatorState.mk 2)
      (mkChunk (str "abc")) (by decide)⟩

/-- C10: resuming from a persisted checkpoint restores only the start page:
the resumed state is independent of the stored oracle call count, its
validator counter starts at zero, and a resumed run can issue the full
ceiling of fresh oracle calls on top of whatever the checkpoint recorded
(here two more calls after a checkpoint recording thirty seven). -/
theorem resumeIgnoresStoredOracleCalls :
    (∀ ck : Checkpoint, pipelineResumeInit (some ck) =
      ResumedRun.mk (ck.lastProcessedPage + 1) (ValidatorState.mk 0)) ∧
    (∀ (ck : Checkpoint) (v : ℕ),
      pipelineResumeInit (some { ck with llmCallsUsed := v }) = pipelineResumeInit (some ck)) ∧
    (validateBatches cfgOracleAll oracleDown (pipelineResumeInit (some ckExample)).validator
      [[mkChunk (str "abc")], [mkChunk (str "abc")]]).llmCallCount = cfgOracleAll.llm.maxCalls := by
  refine ⟨fun ck => rfl, fun ck v => rfl, by decide⟩

/-- Every result produced by the response parser carries the oracle
provenance. -/
theorem parseLlmResponseSource (resp : PyStr) (r : ValidationResult)
    (h : parseLlmResponse resp = some r) : r.source = "llm" := by
  unfold parseLlmResponse at h
  rcases hx : extractBracedFrom resp with _ | cand <;> rw [hx] at h <;> dsimp only at h
  · simp at h
  · rcases hj : jsonLoads cand with _ | ms <;> rw [hj] at h <;> dsimp only at h
    · simp at h
    · rcases hq : qualityOfJ (jGet ms (str "quality")) with _ | q <;>
        rcases hc : pyFloatOfJ (jGet ms (str "confidence")) with _ | conf <;>
        rw [hq, hc] at h <;> simp at h
      rw [← h]

/-- Every result handed back by _llm_validation carries the oracle
provenance. -/
theorem llmValidationSource (oracle : OracleTransport) (st : ValidatorState)
    (c : Chunk) (r : ValidationResult)
    (h : (llmValidation oracle st c).1 = some r) : r.source = "llm" := by
  unfold llmValidation at h
  rcases ho : oracle (promptExcerpt c.content) st.llmCallCount with _ | resp <;>
    rw [ho] at h <;> dsimp only at h
  · simp at h
  · by_cases he : resp = []
    · rw [if_pos he] at h
      simp at h
    · rw [if_neg he] at h
      exact parseLlmResponseSource resp r h

/-- C6: for a chunk routed to the oracle, a failed attempt (transport
failure after all retries, falsy response, or unusable parse) leaves the
rule result as the returned authoritative result and the llm fields of the
chunk untouched, while a successful attempt returns the parsed oracle
result, with oracle provenance, superseding the rule verdict and recording
the oracle fields on the chunk. -/
theorem oracleAdvisorySupersedes (cfg : Config) (oracle : OracleTransport)
    (st : ValidatorState) (chunk : Chunk)
    (hroute : shouldUseLlm cfg (ruleValidation cfg.quality chunk.content) ∧ canCallLlm cfg st) :
    ((llmValidation oracle st
        { chunk with ruleScore := (ruleValidation cfg.quality chunk.content).confidence }).1 = none →
      (validateChunk cfg oracle st chunk).2.1 = ruleValidation cfg.quality chunk.content ∧
      (validateChunk cfg oracle st chunk).1.llmQuality = chunk.llmQuality ∧
      (validateChunk cfg oracle st chunk).1.llmConfidence = chunk.llmConfidence ∧
      (validateChunk cfg oracle st chunk).1.llmReason = chunk.llmReason) ∧
    (∀ r : ValidationResult,
      (llmValidation oracle st
        { chunk with ruleScore := (ruleValidation cfg.quality chunk.content).confidence }).1 = some r →
      (validateChunk cfg oracle st chunk).2.1 = r ∧ r.source = "llm" ∧
      (validateChunk cfg oracle st chunk).1.llmQuality = some r.quality ∧
      (validateChunk cfg oracle st chunk).1.llmConfidence = r.confidence) := by
  unfold validateChunk
  rw [if_pos hroute]
  rcases hll : llmValidation oracle st
      { chunk with ruleScore := (ruleValidation cfg.quality chunk.content).confidence } with ⟨o, st1⟩
  constructor
  · intro hnone
    simp only at hnone
    subst hnone
    exact ⟨rfl, rfl, rfl, rfl⟩
  · intro r hsome
    simp only at hsome
    subst hsome
    refine ⟨rfl, ?_, rfl, rfl⟩
    exact llmValidationSource oracle st _ r (by rw [hll])

/-- Witness for the advisory oracle at a concrete chunk: with a transport
that always fails the rule result is returned, and with a transport that
answers a well formed good verdict the parsed oracle result is returned. -/
theorem oracleAdvisorySupersedes_witness :
    (validateChunk cfgOracleAll oracleDown initValidator (mkChunk (str "abc"))).2.1 =
      ruleValidation cfgOracleAll.quality (mkChunk (str "abc")).content ∧
    (validateChunk cfgOracleAll oracleGood initValidator (mkChunk (str "abc"))).2.1 = vrGood := by
  constructor
  · exact ((oracleAdvisorySupersedes cfgOracleAll oracleDown initValidator (mkChunk (str "abc"))
      (by decide)).1 (by decide)).1
  · exact ((oracleAdvisorySupersedes cfgOracleAll oracleGood initValidator (mkChunk (str "abc"))
      (by decide)).2 vrGood (by decide)).1

/-- The head of a nonempty dropWhile result fails the predicate. -/
theorem dropWhile_head_false {p : Char → Bool} :
    ∀ (l : PyStr) (c : Char) (rest : PyStr), l.dropWhile p = c :: rest → p c = false := by
  intro l
  induction l with
  | nil => intro c rest h; simp at h
  | cons x xs ih =>
    intro c rest h
    rw [List.dropWhile_cons] at h
    by_cases hp : p x
    · rw [if_pos hp] at h
      exact ih c rest h
    · rw [if_neg hp] at h
      cases h
      exact Bool.eq_false_iff.mpr hp

/-- The right strip is a prefix of its argument. -/
theorem pyStripRight_prefix (z : PyStr) : pyStripRight z <+: z := by
  unfold pyStripRight
  rw [← List.reverse_suffix]
  simpa using List.dropWhile_suffix (l := z.reverse) pyIsSpace

/-- A nonempty stripped string starts with a non space character. -/
theorem pyStrip_head_false (y : PyStr) (c : Char) (rest : PyStr)
    (h : pyStrip y = c :: rest) : pyIsSpace c = false := by
  have hp : pyStrip y <+: pyStripLeft y := pyStripRight_prefix _
  rw [h] at hp
  obtain ⟨w, hw⟩ := hp
  exact dropWhile_head_false y c (rest ++ w) hw.symm

/-- A nonempty stripped string ends with a non space character. -/
theorem pyStrip_getLast_false (y : PyStr) (c : Char)
    (h : (pyStrip y).getLast? = some c) : pyIsSpace c = false := by
  unfold pyStrip pyStripRight at h
  rw [List.getLast?_reverse] at h
  rcases hd : List.dropWhile pyIsSpace (pyStripLeft y).reverse with _ | ⟨c2, rest⟩ <;>
    rw [hd] at h
  · simp at h
  · simp only [List.head?_cons, Option.some.injEq] at h
    subst h
    exact dropWhile_head_false _ _ _ hd

/-- Every piece delivered by the sentence splitter worker is a nonempty
stripped string. -/
theorem mem_splitSentencesAux :
    ∀ (s cur : PyStr) (b : Bool) (x : PyStr),
      x ∈ splitSentencesAux s cur b → ∃ y, x = pyStrip y ∧ pyStrip y ≠ [] := by
  intro s
  induction s with
  | nil =>
    intro cur b x h
    unfold splitSentencesAux at h
    split at h
    · simp at h
    · rename_i hne
      simp only [List.mem_singleton] at h
      exact ⟨cur, h, hne⟩
  | cons c rest ih =>
    intro cur b x h
    unfold splitSentencesAux at h
    split at h
    · exact ih _ _ _ h
    · split at h
      · split at h
        · exact ih _ _ _ h
        · rename_i hne
          rcases List.mem_cons.mp h with h1 | h2
          · exact ⟨cur, h1, hne⟩
          · exact ih _ _ _ h2
      · exact ih _ _ _ h

/-- The sentence pieces of a text are nonempty and stripped at both ends. -/
theorem sentencePieceFacts (s x : PyStr) (h : x ∈ splitSentences s) :
    x ≠ [] ∧ (∀ c rest, x = c :: rest → pyIsSpace c = false) ∧
    (∀ c, x.getLast? = some c → pyIsSpace c = false) := by
  obtain ⟨y, rfl, hne⟩ := mem_splitSentencesAux s [] false x h
  exact ⟨hne, fun c rest hc => pyStrip_head_false y c rest hc,
    fun c hc => pyStrip_getLast_false y c hc⟩

/-- A suffix whose head is not dropped survives dropWhile. -/
theorem suffix_dropWhile_of_head {p : Char → Bool} (u : PyStr) (hu : u ≠ [])
    (hh : ∀ c rest, u = c :: rest → p c = false) :
    ∀ l : PyStr, u <:+ l → u <:+ l.dropWhile p := by
  intro l
  induction l with
  | nil =>
    intro h
    rw [List.suffix_nil] at h
    exact absurd h hu
  | cons a l2 ih =>
    intro h
    rw [List.dropWhile_cons]
    by_cases hp : p a
    · rw [if_pos hp]
      rcases List.suffix_cons_iff.mp h with h1 | h2
      · rw [hh a l2 h1] at hp
        exact absurd hp (by simp)
      · exact ih h2
    · rw [if_neg hp]
      exact h

/-- Stripping from the right removes exactly the trailing space after a
string ending in a non space character. -/
theorem pyStripRight_append_last (v t : PyStr) (ht : t ≠ [])
    (hl : ∀ c, t.getLast? = some c → pyIsSpace c = false) :
    pyStripRight (v ++ t ++ [' ']) = v ++ t := by
  unfold pyStripRight
  rcases htr : t.reverse with _ | ⟨c, tr⟩
  · exact absurd (by simpa using htr) ht
  · have hc : pyIsSpace c = false := by
      refine hl c ?_
      rw [List.getLast?_eq_head?_reverse, htr]
      rfl
    have h2 : (v ++ t ++ [' ']).reverse = ' ' :: (c :: (tr ++ v.reverse)) := by
      rw [List.reverse_append, List.reverse_append, htr]
      rfl
    rw [h2, List.dropWhile_cons, if_pos (by rfl), List.dropWhile_cons, if_neg (by simp [hc])]
    rw [show c :: (tr ++ v.reverse) = (v ++ t).reverse by rw [List.reverse_append, htr]; rfl]
    exact List.reverse_reverse _

/-- The accumulator stays a suffix through the overlap collection loop. -/
theorem overlapTextAux_suffix (overlap : ℕ) :
    ∀ (l : List PyStr) (acc : PyStr) (toks : ℕ),
      acc <:+ overlapTextAux overlap l acc toks := by
  intro l
  induction l with
  | nil =>
    intro acc toks
    exact List.suffix_refl _
  | cons s rest ih =>
    intro acc toks
    unfold overlapTextAux
    split
    · refine List.IsSuffix.trans ?_ (ih _ _)
      exact ⟨s ++ [' '], by simp⟩
    · exact List.suffix_refl _

/-- The trailing sentence survives as a suffix of the stripped overlap
seed once it has been taken as the first accumulator. -/
theorem overlapTextSuffixCore (overlap : ℕ) (rest : List PyStr) (t : PyStr)
    (ht : t ≠ [])
    (hhead : ∀ c r0, t = c :: r0 → pyIsSpace c = false)
    (hlastc : ∀ c, t.getLast? = some c → pyIsSpace c = false) :
    t <:+ pyStrip (overlapTextAux overlap rest (t ++ [' ']) (countTokens t)) := by
  have hsuf : (t ++ [' ']) <:+ overlapTextAux overlap rest (t ++ [' ']) (countTokens t) :=
    overlapTextAux_suffix overlap rest (t ++ [' ']) (countTokens t)
  have hsufL : (t ++ [' ']) <:+
      pyStripLeft (overlapTextAux overlap rest (t ++ [' ']) (countTokens t)) := by
    refine suffix_dropWhile_of_head (t ++ [' ']) (by simp) ?_ _ hsuf
    intro c r0 hc
    rcases ht0 : t with _ | ⟨c0, t0⟩
    · exact absurd ht0 ht
    · rw [ht0] at hc
      simp only [List.cons_append, List.cons.injEq] at hc
      rw [← hc.1]
      exact hhead c0 t0 ht0
  obtain ⟨v2, hv2⟩ := hsufL
  unfold pyStrip
  rw [← hv2, show v2 ++ (t ++ [' ']) = v2 ++ t ++ [' '] by simp,
    pyStripRight_append_last v2 t ht hlastc]
  exact List.suffix_append v2 t

/-- C9 as amended: at an overflow boundary of the token policy where no
force split occurs, the next accumulated chunk is the overlap seed followed
by the incoming sentence, and when the trailing sentence of the closed chunk
fits the overlap budget that sentence survives as a suffix of the seed, so
the closed chunk and its successor share it.  When it does not fit, the seed
is empty (see the example above) and nothing is shared. -/
theorem overlapSeedSharesTrailingSentence (cfg : ChunkConfig) (st : TokState) (s t : PyStr)
    (hs : countTokens s ≤ cfg.size)
    (hover : cfg.size < st.curToks + countTokens s)
    (hlast : (splitSentences st.cur).getLast? = some t)
    (htok : countTokens t ≤ cfg.overlap) :
    (tokenStep cfg st s).cur = overlapText cfg.overlap st.cur ++ s ∧
    t <:+ overlapText cfg.overlap st.cur ∧ t ≠ [] := by
  have htmem : t ∈ splitSentences st.cur := List.mem_of_mem_getLast? hlast
  have tfacts := sentencePieceFacts st.cur t htmem
  have hcur : st.cur ≠ [] := by
    intro h0
    rw [h0] at hlast
    simp [splitSentences, splitSentencesAux, pyStrip, pyStripLeft, pyStripRight] at hlast
  have h1 : (tokenStep cfg st s).cur = overlapText cfg.overlap st.cur ++ s := by
    unfold tokenStep
    rw [if_neg (by omega), if_pos hover]
  refine ⟨h1, ?_, tfacts.1⟩
  have hrev : (splitSentences st.cur).reverse = t :: (splitSentences st.cur).reverse.tail := by
    have hh : (splitSentences st.cur).reverse.head? = some t := by
      rw [List.head?_reverse]
      exact hlast
    rcases hx : (splitSentences st.cur).reverse with _ | ⟨a, as2⟩
    · rw [hx] at hh
      simp at hh
    · rw [hx] at hh
      simp only [List.head?_cons, Option.some.injEq] at hh
      subst hh
      rfl
  unfold overlapText
  rw [if_neg hcur, hrev]
  unfold overlapTextAux
  rw [if_pos (by simpa using htok), Nat.zero_add, List.append_nil]
  exact overlapTextSuffixCore cfg.overlap (splitSentences st.cur).reverse.tail t
    tfacts.1 tfacts.2.1 tfacts.2.2

/-- Witness for the amended overlap statement at a concrete boundary: with
overlap budget one hundred fifty, a closed chunk of one sentence seeds the
next chunk, and the shared sentence is a suffix of the seed. -/
theorem overlapSeedSharesTrailingSentence_witness :
    (tokenStep cfgOracleAll.chunk (TokState.mk [] (str "一二。") 799) (str "三四。")).cur =
      overlapText cfgOracleAll.chunk.overlap (str "一二。") ++ str "三四。" ∧
    str "一二。" <:+ overlapText cfgOracleAll.chunk.overlap (str "一二。") ∧
    str "一二。" ≠ [] :=
  overlapSeedSharesTrailingSentence cfgOracleAll.chunk (TokState.mk [] (str "一二。") 799)
    (str "三四。") (str "一二。") (by decide) (by decide) (by decide) (by decide)

/-- A block whose content has the shape its type expects never raises in
the merge step. -/
theorem blockToMergedOk (p : ℕ) (b : PageBlock)
    (h : b.type = BlockType.table → ∀ s, b.content ≠ BlockContent.str s) :
    ∃ xs, blockToMerged p b = Except.ok xs := by
  rcases hb : b.type with _ | _ | _ <;> rcases hc : b.content with s | rows <;>
      unfold blockToMerged <;> rw [hb, hc] <;> dsimp only
  · by_cases hs0 : pyStrip s ≠ []
    · exact ⟨_, by rw [if_pos hs0]⟩
    · exact ⟨[], by rw [if_neg hs0]⟩
  · exact ⟨[], rfl⟩
  · exact absurd hc (h hb s)
  · by_cases ht0 : tableToText rows ≠ []
    · exact ⟨_, by rw [if_pos ht0]⟩
    · exact ⟨[], by rw [if_neg ht0]⟩
  · exact ⟨[], rfl⟩
  · exact ⟨[], rfl⟩

/-- A page of such blocks merges without an error. -/
theorem mergeBlocksOnPageOk (p : ℕ) :
    ∀ blocks : List PageBlock,
      (∀ b ∈ blocks, b.type = BlockType.table → ∀ s, b.content ≠ BlockContent.str s) →
      ∃ xs, mergeBlocksOnPage p blocks = Except.ok xs := by
  intro blocks
  induction blocks with
  | nil => intro h; exact ⟨[], rfl⟩
  | cons b bs ih =>
    intro h
    obtain ⟨xs, hx⟩ := blockToMergedOk p b (h b (List.mem_cons_self b bs))
    obtain ⟨ys, hy⟩ := ih (fun b2 hb2 => h b2 (List.mem_cons_of_mem b hb2))
    refine ⟨xs ++ ys, ?_⟩
    unfold mergeBlocksOnPage
    rw [hx, hy]

/-- A sorted window of such blocks merges without an error. -/
theorem mergePagesSortedOk :
    ∀ w : List (ℕ × List PageBlock),
      (∀ e ∈ w, ∀ b ∈ e.2, b.type = BlockType.table → ∀ s, b.content ≠ BlockContent.str s) →
      ∃ xs, mergePagesSorted w = Except.ok xs := by
  intro w
  induction w with
  | nil => intro h; exact ⟨[], rfl⟩
  | cons e rest ih =>
    intro h
    obtain ⟨xs, hx⟩ := mergeBlocksOnPageOk e.1 e.2 (h e (List.mem_cons_self e rest))
    obtain ⟨ys, hy⟩ := ih (fun e2 he2 => h e2 (List.mem_cons_of_mem e he2))
    refine ⟨xs ++ ys, ?_⟩
    unfold mergePagesSorted
    rw [hx, hy]

/-- Membership through the stable insertion. -/
theorem mem_insertByKey (x y : ℕ × List PageBlock) :
    ∀ l, y ∈ insertByKey x l ↔ y = x ∨ y ∈ l := by
  intro l
  induction l with
  | nil => simp [insertByKey]
  | cons a l2 ih =>
    unfold insertByKey
    split
    · simp only [List.mem_cons, ih]
      tauto
    · simp only [List.mem_cons]

/-- Membership through the window sort. -/
theorem mem_sortWindow (y : ℕ × List PageBlock) :
    ∀ w, y ∈ sortWindow w ↔ y ∈ w := by
  intro w
  induction w with
  | nil => simp [sortWindow]
  | cons a rest ih =>
    unfold sortWindow at ih ⊢
    simp only [List.foldr_cons, mem_insertByKey, ih, List.mem_cons]

/-- C8 as amended: create_chunks raises only for a table block carrying
string content (see the example above); when every table block carries the
mapping shape, the token and sentence policies always yield a result, and a
window whose merged text is empty or white space only yields the empty
chunk list.  Under the character policy a result can fail to materialize
for a different reason: the splitter need not terminate. -/
theorem createChunksTotal (cfg : ChunkConfig) (source : PyStr) (hashFn : PyStr → PyStr)
    (counter0 fuel : ℕ) (w : List (ℕ × List PageBlock))
    (hpol : cfg.splitBy = "token" ∨ cfg.splitBy = "sentence")
    (htab : ∀ e ∈ w, ∀ b ∈ e.2, b.type = BlockType.table → ∀ s, b.content ≠ BlockContent.str s) :
    (∃ out, createChunks cfg source hashFn counter0 fuel w = Except.ok (some out)) ∧
    (∀ merged, mergePageContents w = Except.ok merged →
      pyStrip (buildFullText merged).text = [] →
      createChunks cfg source hashFn counter0 fuel w = Except.ok (some ([], counter0))) := by
  obtain ⟨merged, hm⟩ := mergePagesSortedOk (sortWindow w)
    (fun e he => htab e ((mem_sortWindow e w).mp he))
  have hm2 : mergePageContents w = Except.ok merged := hm
  have hdisp : ∀ text : PyStr, ∃ cts, splitDispatch cfg fuel text = some cts := by
    intro text
    rcases hpol with h | h <;> unfold splitDispatch <;> rw [h] <;> simp
  constructor
  · unfold createChunks
    rw [hm2]
    dsimp only
    by_cases hmm0 : merged = []
    · rw [if_pos hmm0]
      exact ⟨([], counter0), rfl⟩
    · rw [if_neg hmm0]
      unfold splitIntoChunks
      by_cases hws0 : pyStrip (buildFullText merged).text = []
      · rw [if_pos hws0]
        exact ⟨([], counter0), rfl⟩
      · rw [if_neg hws0]
        obtain ⟨cts, hc⟩ := hdisp (buildFullText merged).text
        rw [hc]
        exact ⟨_, rfl⟩
  · intro merged2 hm3 hws
    rw [hm2] at hm3
    cases hm3
    unfold createChunks
    rw [hm2]
    dsimp only
    by_cases hmm0 : merged = []
    · rw [if_pos hmm0]
    · rw [if_neg hmm0]
      unfold splitIntoChunks
      rw [if_pos hws]

/-- Witness for the amended totality statement on a white space only window
under the token policy. -/
theorem createChunksTotal_witness :
    (∃ out, createChunks cfgTokBig srcDoc hashC 0 9 (oneTextWindow "   ") =
      Except.ok (some out)) ∧
    (∀ merged, mergePageContents (oneTextWindow "   ") = Except.ok merged →
      pyStrip (buildFullText merged).text = [] →
      createChunks cfgTokBig srcDoc hashC 0 9 (oneTextWindow "   ") =
        Except.ok (some ([], 0))) := by
  refine createChunksTotal cfgTokBig srcDoc hashC 0 9 (oneTextWindow "   ")
    (Or.inl (by decide)) ?_
  intro e he b hb htp s
  simp only [oneTextWindow, List.mem_singleton] at he
  subst he
  simp only [List.mem_singleton] at hb
  subst hb
  exact absurd htp (by decide)

/-- The ordering between two position index intervals: disjoint in order
and with nondecreasing pages. -/
def ivOrdered (x y : Iv) : Prop := x.start + x.len ≤ y.start ∧ x.page ≤ y.page

/-- Unfolding of the position lookup over a cons. -/
theorem pageAt_cons (iv : Iv) (ivs : List Iv) (p : ℤ) :
    pageAt (iv :: ivs) p =
      if (iv.start : ℤ) ≤ p ∧ p < (iv.start : ℤ) + iv.len then some iv.page
      else pageAt ivs p := by
  unfold pageAt
  by_cases h : (iv.start : ℤ) ≤ p ∧ p < (iv.start : ℤ) + iv.len <;>
    simp [List.findSome?_cons, h]

/-- A successful position lookup comes from a member interval containing
the position. -/
theorem pageAt_mem :
    ∀ (ivs : List Iv) (p : ℤ) (a : ℕ), pageAt ivs p = some a →
      ∃ iv ∈ ivs, a = iv.page ∧ (iv.start : ℤ) ≤ p ∧ p < (iv.start : ℤ) + iv.len := by
  intro ivs
  induction ivs with
  | nil => intro p a h; simp [pageAt] at h
  | cons iv rest ih =>
    intro p a h
    rw [pageAt_cons] at h
    by_cases hc : (iv.start : ℤ) ≤ p ∧ p < (iv.start : ℤ) + iv.len
    · rw [if_pos hc] at h
      injection h with h2
      exact ⟨iv, List.mem_cons_self _ _, h2.symm, hc⟩
    · rw [if_neg hc] at h
      obtain ⟨iv2, hm, hrest⟩ := ih p a h
      exact ⟨iv2, List.mem_cons_of_mem _ hm, hrest⟩

/-- Monotonicity of the position lookup over an ordered interval list. -/
theorem pageAt_mono :
    ∀ ivs : List Iv, List.Pairwise ivOrdered ivs →
      ∀ (p q : ℤ) (a b : ℕ), p ≤ q → pageAt ivs p = some a → pageAt ivs q = some b → a ≤ b := by
  intro ivs
  induction ivs with
  | nil => intro _ p q a b _ ha; simp [pageAt] at ha
  | cons iv rest ih =>
    intro hpw p q a b hpq ha hb
    rw [pageAt_cons] at ha hb
    rcases List.pairwise_cons.mp hpw with ⟨hhead, htail⟩
    by_cases hcp : (iv.start : ℤ) ≤ p ∧ p < (iv.start : ℤ) + iv.len <;>
      by_cases hcq : (iv.start : ℤ) ≤ q ∧ q < (iv.start : ℤ) + iv.len
    · rw [if_pos hcp] at ha
      rw [if_pos hcq] at hb
      injection ha with ha2
      injection hb with hb2
      omega
    · rw [if_pos hcp] at ha
      rw [if_neg hcq] at hb
      obtain ⟨iv2, hm2, hb2, -, -⟩ := pageAt_mem rest q b hb
      injection ha with ha2
      have h3 := (hhead iv2 hm2).2
      omega
    · rw [if_neg hcp] at ha
      rw [if_pos hcq] at hb
      obtain ⟨iv1, hm1, -, hge, -⟩ := pageAt_mem rest p a ha
      have h1 : ((iv.start + iv.len : ℕ) : ℤ) ≤ ((iv1.start : ℕ) : ℤ) := by
        exact_mod_cast (hhead iv1 hm1).1
      push_cast at h1
      omega
    · rw [if_neg hcp] at ha
      rw [if_neg hcq] at hb
      exact ih htail p q a b hpq ha hb

/-- A mapped position lies inside the indexed text. -/
theorem pageAt_pos_bounds (ivs : List Iv) (n : ℕ)
    (hb : ∀ iv ∈ ivs, iv.start + iv.len ≤ n) (p : ℤ) (a : ℕ)
    (h : pageAt ivs p = some a) : 0 ≤ p ∧ p < (n : ℤ) := by
  obtain ⟨iv, hm, -, hge, hlt⟩ := pageAt_mem ivs p a h
  have h2 : ((iv.start + iv.len : ℕ) : ℤ) ≤ (n : ℤ) := by exact_mod_cast hb iv hm
  push_cast at h2
  omega

/-- A looked up page respects any bound on the interval pages. -/
theorem pageAt_page_lt (ivs : List Iv) (B : ℕ) (hB : ∀ iv ∈ ivs, iv.page < B)
    (p : ℤ) (a : ℕ) (h : pageAt ivs p = some a) : a < B := by
  obtain ⟨iv, hm, ha, -⟩ := pageAt_mem ivs p a h
  rw [ha]
  exact hB iv hm

/-- The four digit field has length four below ten thousand. -/
theorem pad4_length (n : ℕ) (h : n < 10000) : (pad4 n).length = 4 := by
  unfold pad4
  rw [if_pos h]
  rfl

/-- The digit character map is injective on digits. -/
theorem digitChar_inj : ∀ a < 10, ∀ b < 10, Nat.digitChar a = Nat.digitChar b → a = b := by
  decide

/-- The four digit field is injective below ten thousand. -/
theorem pad4_inj (a b : ℕ) (ha : a < 10000) (hb : b < 10000) (h : pad4 a = pad4 b) : a = b := by
  unfold pad4 at h
  rw [if_pos ha, if_pos hb] at h
  simp only [List.cons.injEq, and_true] at h
  obtain ⟨h1, h2, h3, h4⟩ := h
  have e1 := digitChar_inj _ (by omega) _ (by omega) h1
  have e2 := digitChar_inj _ (by omega) _ (by omega) h2
  have e3 := digitChar_inj _ (by omega) _ (by omega) h3
  have e4 := digitChar_inj _ (by omega) _ (by omega) h4
  omega

/-- Two chunk identifiers with different indexes differ, whatever the hash
function, as long as every numeric field stays below ten thousand so all
pad fields have length four. -/
theorem generateChunkIdNe (hashFn : PyStr → PyStr) (source : PyStr)
    (ps1 pe1 i1 ps2 pe2 i2 : ℕ)
    (hp1 : ps1 < 10000) (hq1 : pe1 < 10000) (hi1 : i1 < 10000)
    (hp2 : ps2 < 10000) (hq2 : pe2 < 10000) (hi2 : i2 < 10000)
    (hne : i1 ≠ i2) :
    generateChunkId hashFn source ps1 pe1 i1 ≠ generateChunkId hashFn source ps2 pe2 i2 := by
  intro h
  unfold generateChunkId at h
  dsimp only at h
  have hlen : (str "chunk_" ++ pad4 ps1 ++ ['_'] ++ pad4 pe1 ++ ['_'] ++ pad4 i1 ++ ['_']).length =
      (str "chunk_" ++ pad4 ps2 ++ ['_'] ++ pad4 pe2 ++ ['_'] ++ pad4 i2 ++ ['_']).length := by
    simp [List.length_append, pad4_length ps1 hp1, pad4_length ps2 hp2, pad4_length pe1 hq1,
      pad4_length pe2 hq2, pad4_length i1 hi1, pad4_length i2 hi2]
  have h1 := (List.append_inj h hlen).1
  have h2 := (List.append_inj' h1 rfl).1
  have h3 := (List.append_inj' h2 (by rw [pad4_length i1 hi1, pad4_length i2 hi2])).2
  exact hne (pad4_inj i1 i2 hi1 hi2 h3)

/-- The emit step never decreases the instance counter. -/
theorem emitStepCounterLe (cfg : ChunkConfig) (source : PyStr) (hashFn : PyStr → PyStr)
    (fullText : PyStr) (ivs : List Iv) (st : EmitState) (ct : PyStr) :
    st.counter ≤ (emitStep cfg source hashFn fullText ivs st ct).counter := by
  unfold emitStep
  split
  · exact le_refl _
  · exact Nat.le_succ _

/-- The emit loop never decreases the instance counter. -/
theorem emitFoldCounterLe (cfg : ChunkConfig) (source : PyStr) (hashFn : PyStr → PyStr)
    (fullText : PyStr) (ivs : List Iv) :
    ∀ (cts : List PyStr) (st : EmitState),
      st.counter ≤ (cts.foldl (emitStep cfg source hashFn fullText ivs) st).counter := by
  intro cts
  induction cts with
  | nil => intro st; exact le_refl _
  | cons ct rest ih =>
    intro st
    rw [List.foldl_cons]
    exact le_trans (emitStepCounterLe cfg source hashFn fullText ivs st ct) (ih _)

/-- Every chunk out of the emit loop either was present already or carries
an identifier formed from pages within the index page bound and an index in
the half open counter range of the loop. -/
theorem emitFoldIds (cfg : ChunkConfig) (source : PyStr) (hashFn : PyStr → PyStr)
    (fullText : PyStr) (ivs : List Iv) (B : ℕ) (hB : ∀ iv ∈ ivs, iv.page < B) (h0 : 0 < B) :
    ∀ (cts : List PyStr) (st : EmitState),
      ∀ c ∈ (cts.foldl (emitStep cfg source hashFn fullText ivs) st).chunks,
        c ∈ st.chunks ∨
        ∃ ps pe idx, c.chunkId = generateChunkId hashFn source ps pe idx ∧ ps < B ∧ pe < B ∧
          st.counter < idx ∧
          idx ≤ (cts.foldl (emitStep cfg source hashFn fullText ivs) st).counter := by
  intro cts
  induction cts with
  | nil =>
    intro st c hc
    exact Or.inl hc
  | cons ct rest ih =>
    intro st c hc
    rw [List.foldl_cons] at hc
    have hpsB : ∀ p : ℤ, emitPageStart ivs p < B := by
      intro p
      unfold emitPageStart
      rcases hp : pageAt ivs p with _ | a
      · simpa using h0
      · simpa using pageAt_page_lt ivs B hB p a hp
    have hpeB : ∀ (p : ℤ) (ct2 : PyStr), emitPageEnd ivs fullText p ct2 < B := by
      intro p ct2
      unfold emitPageEnd
      rcases hp : pageAt ivs (min (p + ct2.length - 1) ((fullText.length : ℤ) - 1)) with _ | a
      · simpa using hpsB p
      · simpa using pageAt_page_lt ivs B hB _ a hp
    rcases ih (emitStep cfg source hashFn fullText ivs st ct) c hc with hin | ⟨ps, pe, idx, hid, hps, hpe, hlt, hle⟩
    · unfold emitStep at hin
      split at hin
      · exact Or.inl hin
      · rcases List.mem_append.mp hin with hold | hnew
        · exact Or.inl hold
        · right
          refine ⟨emitPageStart ivs (emitChunkStart fullText st.pos ct),
            emitPageEnd ivs fullText (emitChunkStart fullText st.pos ct) ct, st.counter + 1,
            ?_, hpsB _, hpeB _ _, Nat.lt_succ_self _, ?_⟩
          · rw [List.mem_singleton.mp hnew]
            rfl
          · rw [List.foldl_cons]
            have h2 := emitFoldCounterLe cfg source hashFn fullText ivs rest
              (emitStep cfg source hashFn fullText ivs st ct)
            refine le_trans ?_ h2
            unfold emitStep
            rw [if_neg (by assumption)]
    · right
      refine ⟨ps, pe, idx, hid, hps, hpe, ?_, ?_⟩
      · exact lt_of_le_of_lt (emitStepCounterLe cfg source hashFn fullText ivs st ct) hlt
      · rw [List.foldl_cons]
        exact hle

/-- Every merged item of one block carries the page it was merged on. -/
theorem blockToMergedPages (p : ℕ) (b : PageBlock) (ys : List MergedItem)
    (h : blockToMerged p b = Except.ok ys) : ∀ m ∈ ys, m.page = p := by
  intro m hm
  unfold blockToMerged at h
  rcases b with ⟨bt, bc, conf⟩
  rcases bt <;> rcases bc <;> dsimp only at h
  · split at h <;> cases h
    · simp only [List.mem_singleton] at hm
      rw [hm]
    · simp at hm
  · cases h
    simp at hm
  · cases h
  · split at h <;> cases h
    · simp only [List.mem_singleton] at hm
      rw [hm]
    · simp at hm
  · cases h
    simp at hm
  · cases h
    simp at hm

/-- Every merged item of one page carries that page number. -/
theorem mergeBlocksOnPagePages (p : ℕ) :
    ∀ (blocks : List PageBlock) (xs : List MergedItem),
      mergeBlocksOnPage p blocks = Except.ok xs → ∀ m ∈ xs, m.page = p := by
  intro blocks
  induction blocks with
  | nil =>
    intro xs h m hm
    cases h
    simp at hm
  | cons b bs ih =>
    intro xs h m hm
    unfold mergeBlocksOnPage at h
    rcases hb : blockToMerged p b with e | ys <;> rw [hb] at h <;> try dsimp only at h
    · cases h
    · rcases hr : mergeBlocksOnPage p bs with e | zs <;> rw [hr] at h <;> try dsimp only at h
      · cases h
      · injection h with h
        subst h
        rcases List.mem_append.mp hm with h1 | h2
        · exact blockToMergedPages p b ys hb m h1
        · exact ih zs hr m h2

/-- Every merged item of a window fragment carries one of its page keys. -/
theorem mergePagesSortedPages :
    ∀ (l : List (ℕ × List PageBlock)) (xs : List MergedItem),
      mergePagesSorted l = Except.ok xs → ∀ m ∈ xs, ∃ e ∈ l, m.page = e.1 := by
  intro l
  induction l with
  | nil =>
    intro xs h m hm
    cases h
    simp at hm
  | cons e rest ih =>
    intro xs h m hm
    unfold mergePagesSorted at h
    rcases hb : mergeBlocksOnPage e.1 e.2 with er | ys <;> rw [hb] at h <;> try dsimp only at h
    · cases h
    · rcases hr : mergePagesSorted rest with er | zs <;> rw [hr] at h <;> try dsimp only at h
      · cases h
      · injection h with h
        subst h
        rcases List.mem_append.mp hm with h1 | h2
        · exact ⟨e, List.mem_cons_self _ _, mergeBlocksOnPagePages e.1 e.2 ys hb m h1⟩
        · obtain ⟨e2, he2, hp2⟩ := ih zs hr m h2
          exact ⟨e2, List.mem_cons_of_mem _ he2, hp2⟩

/-- Every interval page of the built position index is the page of some
merged item. -/
theorem buildFullTextPages :
    ∀ (merged : List MergedItem) (st : BuildState),
      ∀ iv ∈ (merged.foldl buildStep st).ivs,
        iv ∈ st.ivs ∨ ∃ m ∈ merged, iv.page = m.page := by
  intro merged
  induction merged with
  | nil =>
    intro st iv h
    exact Or.inl h
  | cons m ms ih =>
    intro st iv h
    rw [List.foldl_cons] at h
    rcases ih (buildStep st m) iv h with hin | ⟨m2, hm2, hp⟩
    · unfold buildStep at hin
      rcases List.mem_append.mp hin with h1 | h2
      · exact Or.inl h1
      · exact Or.inr ⟨m, List.mem_cons_self _ _, by rw [List.mem_singleton.mp h2]⟩
    · exact Or.inr ⟨m2, List.mem_cons_of_mem _ hm2, hp⟩

/-- Structural view of a successful create_chunks call: either the window
merged to nothing or to white space, yielding the empty list with the
counter unchanged, or the emit loop ran over the split pieces from the
cursor zero and the incoming counter. -/
theorem createChunksSplitView (cfg : ChunkConfig) (source : PyStr) (hashFn : PyStr → PyStr)
    (counter0 fuel : ℕ) (w : List (ℕ × List PageBlock)) (out : List Chunk) (k : ℕ)
    (h : createChunks cfg source hashFn counter0 fuel w = Except.ok (some (out, k))) :
    (out = [] ∧ k = counter0) ∨
    ∃ merged cts, mergePageContents w = Except.ok merged ∧
      splitDispatch cfg fuel (buildFullText merged).text = some cts ∧
      out = (cts.foldl (emitStep cfg source hashFn (buildFullText merged).text
        (buildFullText merged).ivs) (EmitState.mk 0 counter0 [])).chunks ∧
      k = (cts.foldl (emitStep cfg source hashFn (buildFullText merged).text
        (buildFullText merged).ivs) (EmitState.mk 0 counter0 [])).counter := by
  unfold createChunks at h
  rcases hm : mergePageContents w with e | merged <;> rw [hm] at h <;> dsimp only at h
  · simp at h
  · by_cases hme : merged = []
    · rw [if_pos hme] at h
      simp only [Except.ok.injEq, Option.some.injEq, Prod.mk.injEq] at h
      exact Or.inl ⟨h.1.symm, h.2.symm⟩
    · rw [if_neg hme] at h
      unfold splitIntoChunks at h
      by_cases hws : pyStrip (buildFullText merged).text = []
      · rw [if_pos hws] at h
        simp only [Except.ok.injEq, Option.some.injEq, Prod.mk.injEq] at h
        exact Or.inl ⟨h.1.symm, h.2.symm⟩
      · rw [if_neg hws] at h
        rcases hd : splitDispatch cfg fuel (buildFullText merged).text with _ | cts <;>
          rw [hd] at h
        · simp at h
        · simp only [Except.ok.injEq, Option.some.injEq, Prod.mk.injEq] at h
          exact Or.inr ⟨merged, cts, rfl, hd, h.1.symm, h.2.symm⟩

/-- C3 as amended: every chunk identifier is generate_chunk_id applied to
the source, the page range and the in memory instance counter value at
emission, so the identifiers of two successive create_chunks runs over the
identical window never coincide: the second run continues counting where
the first stopped.  The bounds keep every pad field at width four. -/
theorem chunkIdsDifferAcrossRuns (cfg : ChunkConfig) (source : PyStr)
    (hashFn : PyStr → PyStr) (fuel : ℕ) (w : List (ℕ × List PageBlock))
    (c0 k1 k2 : ℕ) (out1 out2 : List Chunk)
    (h1 : createChunks cfg source hashFn c0 fuel w = Except.ok (some (out1, k1)))
    (h2 : createChunks cfg source hashFn k1 fuel w = Except.ok (some (out2, k2)))
    (hk : k2 < 10000) (hpg : ∀ e ∈ w, e.1 < 10000) :
    ∀ c1 ∈ out1, ∀ c2 ∈ out2, c1.chunkId ≠ c2.chunkId := by
  intro c1 hc1 c2 hc2
  rcases createChunksSplitView cfg source hashFn c0 fuel w out1 k1 h1 with ⟨he, -⟩ | hview1
  · rw [he] at hc1
    simp at hc1
  rcases createChunksSplitView cfg source hashFn k1 fuel w out2 k2 h2 with ⟨he, -⟩ | hview2
  · rw [he] at hc2
    simp at hc2
  obtain ⟨m1, cts1, hm1, -, ho1, hk1⟩ := hview1
  obtain ⟨m2, cts2, hm2, -, ho2, hk2⟩ := hview2
  have hmeq : m1 = m2 := by
    rw [hm1] at hm2
    cases hm2
    rfl
  subst hmeq
  have hivB : ∀ iv ∈ (buildFullText m1).ivs, iv.page < 10000 := by
    intro iv hiv
    rcases buildFullTextPages m1 (BuildState.mk [] []) iv hiv with hin | ⟨m, hm, hp⟩
    · simp at hin
    · obtain ⟨e, he, hpe⟩ := mergePagesSortedPages (sortWindow w) m1 hm1 m hm
      rw [hp, hpe]
      exact hpg e ((mem_sortWindow e w).mp he)
  have hi1 := emitFoldIds cfg source hashFn (buildFullText m1).text (buildFullText m1).ivs
    10000 hivB (by omega) cts1 (EmitState.mk 0 c0 []) c1 (by rw [← ho1]; exact hc1)
  have hi2 := emitFoldIds cfg source hashFn (buildFullText m1).text (buildFullText m1).ivs
    10000 hivB (by omega) cts2 (EmitState.mk 0 k1 []) c2 (by rw [← ho2]; exact hc2)
  rcases hi1 with hin | ⟨ps1, pe1, i1, hid1, hps1, hpe1, hlt1, hle1⟩
  · simp at hin
  rcases hi2 with hin | ⟨ps2, pe2, i2, hid2, hps2, hpe2, hlt2, hle2⟩
  · simp at hin
  rw [hid1, hid2]
  have hc1lt : c0 < i1 := by simpa using hlt1
  have hc2lt : k1 < i2 := by simpa using hlt2
  have hi1le : i1 ≤ k1 := by rw [hk1]; exact hle1
  have hi2le : i2 ≤ k2 := by rw [hk2]; exact hle2
  exact generateChunkIdNe hashFn source ps1 pe1 i1 ps2 pe2 i2 hps1 hpe1 (by omega)
    hps2 hpe2 (by omega) (by omega)

/-- Witness for the amended identifier statement at the concrete repeated
window: the single chunks of the two runs carry different identifiers. -/
theorem chunkIdsDifferAcrossRuns_witness :
    chunkBigRun1.chunkId ≠ chunkBigRun2.chunkId := by
  refine chunkIdsDifferAcrossRuns cfgTokBig srcDoc hashC 9 (oneTextWindow "一二。")
    0 1 2 [chunkBigRun1] [chunkBigRun2] (by decide) (by decide) (by decide) ?_
    chunkBigRun1 (List.mem_singleton.mpr rfl) chunkBigRun2 (List.mem_singleton.mpr rfl)
  intro e he
  simp only [oneTextWindow, List.mem_singleton] at he
  subst he
  decide

/-- Stripping never lengthens a string. -/
theorem pyStrip_length_le (s : PyStr) : (pyStrip s).length ≤ s.length := by
  unfold pyStrip pyStripLeft pyStripRight
  calc ((((s.dropWhile pyIsSpace).reverse.dropWhile pyIsSpace)).reverse).length
      = ((s.dropWhile pyIsSpace).reverse.dropWhile pyIsSpace).length := List.length_reverse _
    _ ≤ (s.dropWhile pyIsSpace).reverse.length :=
        (List.dropWhile_suffix pyIsSpace).sublist.length_le
    _ = (s.dropWhile pyIsSpace).length := List.length_reverse _
    _ ≤ s.length := (List.dropWhile_suffix pyIsSpace).sublist.length_le

/-- The stable insertion preserves sortedness by key. -/
theorem insertByKey_pairwise (x : ℕ × List PageBlock) :
    ∀ l, List.Pairwise (fun a b => a.1 ≤ b.1) l →
      List.Pairwise (fun a b => a.1 ≤ b.1) (insertByKey x l) := by
  intro l
  induction l with
  | nil =>
    intro _
    simp [insertByKey]
  | cons a l2 ih =>
    intro h
    rcases List.pairwise_cons.mp h with ⟨hhead, htail⟩
    unfold insertByKey
    split
    · rename_i hle
      refine List.pairwise_cons.mpr ⟨?_, ih htail⟩
      intro y hy
      rcases (mem_insertByKey x y l2).mp hy with h1 | h2
      · rw [h1]
        exact hle
      · exact hhead y h2
    · rename_i hgt
      refine List.pairwise_cons.mpr ⟨?_, h⟩
      intro y hy
      rcases List.mem_cons.mp hy with h1 | h2
      · rw [h1]
        omega
      · exact le_trans (by omega) (hhead y h2)

/-- The window sort is sorted by key. -/
theorem sortWindow_pairwise :
    ∀ w, List.Pairwise (fun (a b : ℕ × List PageBlock) => a.1 ≤ b.1) (sortWindow w) := by
  intro w
  induction w with
  | nil => simp [sortWindow]
  | cons a rest ih =>
    unfold sortWindow at ih ⊢
    rw [List.foldr_cons]
    exact insertByKey_pairwise a _ ih

/-- Merging a key sorted window yields items with nondecreasing pages. -/
theorem mergePagesSortedPairwise :
    ∀ (l : List (ℕ × List PageBlock)) (xs : List MergedItem),
      List.Pairwise (fun a b => a.1 ≤ b.1) l → mergePagesSorted l = Except.ok xs →
      List.Pairwise (fun m1 m2 => m1.page ≤ m2.page) xs := by
  intro l
  induction l with
  | nil =>
    intro xs _ h
    cases h
    exact List.Pairwise.nil
  | cons e rest ih =>
    intro xs hpw h
    rcases List.pairwise_cons.mp hpw with ⟨hhead, htail⟩
    unfold mergePagesSorted at h
    rcases hb : mergeBlocksOnPage e.1 e.2 with er | ys <;> rw [hb] at h <;> try dsimp only at h
    · cases h
    · rcases hr : mergePagesSorted rest with er | zs <;> rw [hr] at h <;> try dsimp only at h
      · cases h
      · injection h with h
        subst h
        rw [List.pairwise_append]
        refine ⟨?_, ih zs htail hr, ?_⟩
        · have hall := mergeBlocksOnPagePages e.1 e.2 ys hb
          refine List.pairwise_of_forall_mem_list ?_
          intro m1 hm1 m2 hm2
          rw [hall m1 hm1, hall m2 hm2]
        · intro m1 hm1 m2 hm2
          obtain ⟨e2, he2, hp2⟩ := mergePagesSortedPages rest zs hr m2 hm2
          rw [mergeBlocksOnPagePages e.1 e.2 ys hb m1 hm1, hp2]
          exact hhead e2 he2

/-- The text of one build step extends the previous text with an optional
separator and then the item text, and appends exactly one interval starting
at the separator adjusted length. -/
theorem buildStepFacts (st : BuildState) (m : MergedItem) :
    ∃ t1 : PyStr, st.text.length ≤ t1.length ∧
      (buildStep st m).text = t1 ++ m.text ∧
      (buildStep st m).ivs = st.ivs ++ [Iv.mk t1.length m.text.length m.page] := by
  unfold buildStep
  by_cases hc : st.text ≠ [] ∧ st.text.getLast? ≠ some (Char.ofNat 10)
  · rw [if_pos hc]
    exact ⟨st.text ++ [Char.ofNat 10, Char.ofNat 10], by simp, rfl, rfl⟩
  · rw [if_neg hc]
    exact ⟨st.text, le_refl _, rfl, rfl⟩

/-- The build fold keeps the interval list ordered, page monotone and
bounded by the text length, for merged items with nondecreasing pages. -/
theorem buildFoldOrdered :
    ∀ (merged : List MergedItem) (st : BuildState),
      List.Pairwise (fun m1 m2 => m1.page ≤ m2.page) merged →
      List.Pairwise ivOrdered st.ivs →
      (∀ iv ∈ st.ivs, iv.start + iv.len ≤ st.text.length) →
      (∀ iv ∈ st.ivs, ∀ m2 ∈ merged, iv.page ≤ m2.page) →
      List.Pairwise ivOrdered (merged.foldl buildStep st).ivs ∧
      (∀ iv ∈ (merged.foldl buildStep st).ivs,
        iv.start + iv.len ≤ (merged.foldl buildStep st).text.length) := by
  intro merged
  induction merged with
  | nil =>
    intro st _ h2 h3 _
    exact ⟨h2, h3⟩
  | cons m ms ih =>
    intro st hpw h2 h3 h4
    rcases List.pairwise_cons.mp hpw with ⟨hhead, htail⟩
    rw [List.foldl_cons]
    obtain ⟨t1, hlen, htext, hivs⟩ := buildStepFacts st m
    refine ih (buildStep st m) htail ?_ ?_ ?_
    · rw [hivs, List.pairwise_append]
      refine ⟨h2, by simp, ?_⟩
      intro a ha b hb
      rw [List.mem_singleton] at hb
      subst hb
      exact ⟨le_trans (h3 a ha) hlen, h4 a ha m (List.mem_cons_self _ _)⟩
    · intro iv hiv
      rw [hivs] at hiv
      rw [htext, List.length_append]
      rcases List.mem_append.mp hiv with h5 | h6
      · have h7 := h3 iv h5
        omega
      · rw [List.mem_singleton] at h6
        subst h6
        exact le_refl _
    · intro iv hiv m2 hm2
      rw [hivs] at hiv
      rcases List.mem_append.mp hiv with h5 | h6
      · exact h4 iv h5 m2 (List.mem_cons_of_mem _ hm2)
      · rw [List.mem_singleton] at h6
        subst h6
        exact hhead m2 hm2

/-- The page range of one emitted chunk is well ordered whenever the
position index is ordered and bounded by the text. -/
theorem emitChunkOfPageLe (source : PyStr) (hashFn : PyStr → PyStr) (fullText : PyStr)
    (ivs : List Iv) (st : EmitState) (ct : PyStr)
    (hpw : List.Pairwise ivOrdered ivs)
    (hbd : ∀ iv ∈ ivs, iv.start + iv.len ≤ fullText.length)
    (hct : ct ≠ []) :
    (emitChunkOf source hashFn fullText ivs st ct).pageStart ≤
      (emitChunkOf source hashFn fullText ivs st ct).pageEnd := by
  show emitPageStart ivs (emitChunkStart fullText st.pos ct) ≤
    emitPageEnd ivs fullText (emitChunkStart fullText st.pos ct) ct
  unfold emitPageEnd
  rcases he : pageAt ivs (min (emitChunkStart fullText st.pos ct + ct.length - 1)
      ((fullText.length : ℤ) - 1)) with _ | b
  · exact le_refl _
  · simp only [Option.getD_some]
    unfold emitPageStart
    rcases hs : pageAt ivs (emitChunkStart fullText st.pos ct) with _ | a
    · simp only [Option.getD_none]
      exact Nat.zero_le b
    · simp only [Option.getD_some]
      have hb1 := pageAt_pos_bounds ivs fullText.length hbd _ a hs
      have hlen : (1 : ℤ) ≤ (ct.length : ℤ) := by
        have h0 : 1 ≤ ct.length := List.length_pos.mpr hct
        exact_mod_cast h0
      refine pageAt_mono ivs hpw _ _ a b ?_ hs he
      refine le_min ?_ ?_ <;> omega

/-- Every chunk out of the emit loop satisfies the page order and character
count inequalities, given an ordered bounded position index. -/
theorem emitFoldProp (cfg : ChunkConfig) (source : PyStr) (hashFn : PyStr → PyStr)
    (fullText : PyStr) (ivs : List Iv)
    (hpw : List.Pairwise ivOrdered ivs)
    (hbd : ∀ iv ∈ ivs, iv.start + iv.len ≤ fullText.length) :
    ∀ (cts : List PyStr) (st : EmitState),
      (∀ c ∈ st.chunks, c.pageStart ≤ c.pageEnd ∧ c.content.length ≤ c.charCount) →
      ∀ c ∈ (cts.foldl (emitStep cfg source hashFn fullText ivs) st).chunks,
        c.pageStart ≤ c.pageEnd ∧ c.content.length ≤ c.charCount := by
  intro cts
  induction cts with
  | nil =>
    intro st h c hc
    exact h c hc
  | cons ct rest ih =>
    intro st h c hc
    rw [List.foldl_cons] at hc
    refine ih (emitStep cfg source hashFn fullText ivs st ct) ?_ c hc
    intro c2 hc2
    unfold emitStep at hc2
    split at hc2
    · exact h c2 hc2
    · rename_i hne
      rcases List.mem_append.mp hc2 with hold | hnew
      · exact h c2 hold
      · rw [List.mem_singleton] at hnew
        subst hnew
        have hct : ct ≠ [] := by
          intro h0
          rw [h0] at hne
          exact hne rfl
        refine ⟨emitChunkOfPageLe source hashFn fullText ivs st ct hpw hbd hct, ?_⟩
        show (pyStrip ct).length ≤ ct.length
        exact pyStrip_length_le ct

/-- C1 as amended: every chunk produced by create_chunks, under any policy,
has an ordered page range and a nonnegative token count, and its character
count is the length of the raw piece before stripping, hence at least the
length of the stored content.  The original claim stating equality with the
content length fails, see the example above. -/
theorem emittedChunkInvariants (cfg : ChunkConfig) (source : PyStr) (hashFn : PyStr → PyStr)
    (counter0 fuel : ℕ) (w : List (ℕ × List PageBlock)) (out : List Chunk) (k : ℕ)
    (h : createChunks cfg source hashFn counter0 fuel w = Except.ok (some (out, k))) :
    ∀ c ∈ out, c.pageStart ≤ c.pageEnd ∧ c.content.length ≤ c.charCount ∧ 0 ≤ c.tokenCount := by
  intro c hc
  rcases createChunksSplitView cfg source hashFn counter0 fuel w out k h with
    ⟨he, -⟩ | ⟨merged, cts, hm, -, ho, -⟩
  · rw [he] at hc
    simp at hc
  · have hpages := mergePagesSortedPairwise (sortWindow w) merged (sortWindow_pairwise w) hm
    have hbuild := buildFoldOrdered merged (BuildState.mk [] []) hpages
      List.Pairwise.nil (by simp) (by simp)
    have h2 := emitFoldProp cfg source hashFn (buildFullText merged).text
      (buildFullText merged).ivs hbuild.1 hbuild.2 cts (EmitState.mk 0 counter0 [])
      (by simp) c (by rw [← ho]; exact hc)
    exact ⟨h2.1, h2.2, Nat.zero_le _⟩

/-- Witness for the amended chunk invariants at the force split example. -/
theorem emittedChunkInvariants_witness :
    chunkForceA.pageStart ≤ chunkForceA.pageEnd ∧
    chunkForceA.content.length ≤ chunkForceA.charCount ∧ 0 ≤ chunkForceA.tokenCount :=
  emittedChunkInvariants cfgTokForce srcDoc hashC 0 9 (oneTextWindow "中 文")
    [chunkForceA, chunkForceB] 2 (by decide) chunkForceA (by decide)
